import Mathlib

/-!
# nexus-cli: the discovery / filter / action engine

A shallow embedding of `nexus-cli.go` (package `main`).

* Go `string` values are Lean `String`s.
* Every function of the source that logs, prints, issues an HTTP request or can
  panic is a `Prog`: a function from the world reached so far (the chronological
  list of observable events) to a `Result`, which is either a normal return or a
  panic, and in both cases carries the world reached.  A panic therefore never
  rolls back the events that happened before it.
* The collaborators that are not part of the repository are taken from an
  environment `Env`: the regular-expression engine (`regexp.Compile`), the HTTP
  client (`gorequest`) and the XML decoder (`encoding/xml`).
* `time.Parse` is modelled concretely for the three layout constants of the
  source, following the Go standard library (`time/format.go`, Go 1.17 and later).
-/

namespace NexusCli

/-! ## `time`: instants, `Date`, `Parse` -/

/-- A Go `time.Time` in UTC: seconds since the Unix epoch and nanoseconds within
the second. -/
structure Time where
  sec : Int
  nsec : Nat
deriving DecidableEq, Repr

/-- Go `t.Before(u)`: the instant `t` is strictly earlier than the instant `u`. -/
def Time.Before (t u : Time) : Bool :=
  decide (t.sec < u.sec) || (decide (t.sec = u.sec) && decide (t.nsec < u.nsec))

/-- Go `time.isLeap`. -/
def isLeap (year : Int) : Bool :=
  decide (year % 4 = 0) && (decide (year % 100 ≠ 0) || decide (year % 400 = 0))

/-- Go `time.daysBefore`: `daysBefore m` is the number of days in a non-leap
year before month `m + 1` starts. -/
def daysBefore (m : Int) : Int :=
  if m = 0 then 0 else if m = 1 then 31 else if m = 2 then 59 else if m = 3 then 90
  else if m = 4 then 120 else if m = 5 then 151 else if m = 6 then 181
  else if m = 7 then 212 else if m = 8 then 243 else if m = 9 then 273
  else if m = 10 then 304 else if m = 11 then 334 else 365

/-- Go `time.daysIn`. -/
def daysIn (m : Int) (year : Int) : Int :=
  if m = 2 ∧ isLeap year = true then 29 else daysBefore m - daysBefore (m - 1)

/-- Days from 0000-01-01 to January 1st of `year` in the proleptic Gregorian
calendar (floor division). -/
def daysBeforeYear (year : Int) : Int :=
  365 * year + (year + 3) / 4 - (year + 99) / 100 + (year + 399) / 400

/-- Go `time.Date(year, month, day, hour, min, sec, nsec, time.UTC)` for
arguments that are already in range, which is all `Parse` ever passes. -/
def Date (year month day hour min sec nsec : Int) : Time :=
  let d := daysBeforeYear year - 719528 + daysBefore (month - 1)
    + (if isLeap year = true ∧ 3 ≤ month then 1 else 0) + (day - 1)
  { sec := d * 86400 + hour * 3600 + min * 60 + sec, nsec := nsec.toNat }

/-- The layout elements (`std` chunks of `time.nextStdChunk`) that occur in the
layouts of the source. -/
inductive Std where
  | stdLongYear
  | stdZeroMonth
  | stdZeroDay
  | stdHour
  | stdZeroMinute
  | stdZeroSecond
  | stdFracSecond9
deriving DecidableEq, Repr

/-- A layout string as `time.Parse` walks it: repeated calls of
`nextStdChunk` yield a literal text followed by a layout element and the rest
(`chunk`), until only literal text is left (`done`). -/
inductive Layout where
  | done (lit : List Char)
  | chunk (lit : List Char) (std : Std) (suffix : Layout)
deriving Repr

/-- The layout element that the next call of `nextStdChunk` on the layout
would return (`none` for `std == 0`). -/
def Layout.nextStd : Layout → Option Std
  | .done _ => none
  | .chunk _ std _ => some std

/-- Source constant `timeLayout = "2006-01-02 15:04:05"`. -/
def timeLayout : Layout :=
  .chunk [] .stdLongYear <| .chunk ['-'] .stdZeroMonth <| .chunk ['-'] .stdZeroDay <|
  .chunk [' '] .stdHour <| .chunk [':'] .stdZeroMinute <| .chunk [':'] .stdZeroSecond <|
  .done []

/-- Source constant `timeLayoutShort = "2006-01-02"`. -/
def timeLayoutShort : Layout :=
  .chunk [] .stdLongYear <| .chunk ['-'] .stdZeroMonth <| .chunk ['-'] .stdZeroDay <|
  .done []

/-- Source constant `nexusTimeLayout = "2006-01-02 15:04:05.9 UTC"`: the `.9`
is a fractional-second element and ` UTC` is literal text. -/
def nexusTimeLayout : Layout :=
  .chunk [] .stdLongYear <| .chunk ['-'] .stdZeroMonth <| .chunk ['-'] .stdZeroDay <|
  .chunk [' '] .stdHour <| .chunk [':'] .stdZeroMinute <| .chunk [':'] .stdZeroSecond <|
  .chunk [] .stdFracSecond9 <| .done [' ', 'U', 'T', 'C']

/-- Go `'0' <= c && c <= '9'`. -/
def isDigitChar (c : Char) : Bool :=
  decide ('0'.toNat ≤ c.toNat) && decide (c.toNat ≤ '9'.toNat)

/-- Go `int(c - '0')` for a digit `c`. -/
def digitVal (c : Char) : Int :=
  ((c.toNat - '0'.toNat : Nat) : Int)

/-- Go `time.commaOrPeriod`. -/
def commaOrPeriod (c : Char) : Bool :=
  decide (c = '.') || decide (c = ',')

/-- Go `time.cutspace`: drop the leading blanks. -/
def cutspace : List Char → List Char
  | c :: s => if c = ' ' then cutspace s else c :: s
  | [] => []

/-- Go `time.skip(value, prefix)`: remove the literal text `lit` from the
front of `value`; a blank of the layout stands for a run of blanks of the
value, which may be empty only at the end of the value.  `inBlanks` is set while
the blanks of the layout that follow a matched blank are being dropped (Go's
`prefix = cutspace(prefix)`). -/
def skipAux : Bool → List Char → List Char → Option (List Char)
  | _, value, [] => some value
  | inBlanks, value, p :: lit =>
    if p = ' ' then
      if inBlanks then skipAux true value lit
      else
        match value with
        | [] => skipAux true [] lit
        | v :: rest => if v ≠ ' ' then none else skipAux true (cutspace (v :: rest)) lit
    else
      match value with
      | [] => none
      | v :: rest => if v = p then skipAux false rest lit else none

/-- Go `time.skip`. -/
def skip (value lit : List Char) : Option (List Char) :=
  skipAux false value lit

/-- Go `time.getnum(s, fixed)`: a one- or two-digit number, two digits
required when `fixed`. -/
def getnum (s : List Char) (fixed : Bool) : Option (Int × List Char) :=
  match s with
  | [] => none
  | c0 :: rest =>
    if !isDigitChar c0 then none
    else
      match rest with
      | [] => if fixed then none else some (digitVal c0, [])
      | c1 :: rest1 =>
        if !isDigitChar c1 then
          if fixed then none else some (digitVal c0, c1 :: rest1)
        else some (digitVal c0 * 10 + digitVal c1, rest1)

/-- The decimal value of a string of digits read left to right, starting from
`acc`. -/
def digitsVal (acc : Int) : List Char → Int
  | [] => acc
  | c :: s => digitsVal (acc * 10 + digitVal c) s

/-- Go `time.parseNanoseconds(value, nbytes)` on the digits that follow the
separator: at most nine digits count, scaled to nanoseconds. -/
def parseNanoseconds (digits : List Char) : Int :=
  let ds := digits.take 9
  digitsVal 0 ds * 10 ^ (9 - ds.length)

/-- The fractional second at the front of `value`, if there is one (a comma or
period followed by a digit): its nanoseconds and the rest of the value after
all the digits. -/
def fracSecond (value : List Char) : Option (Int × List Char) :=
  match value with
  | c0 :: c1 :: rest =>
    if commaOrPeriod c0 && isDigitChar c1 then
      let digits := (c1 :: rest).takeWhile isDigitChar
      some (parseNanoseconds digits, (c1 :: rest).dropWhile isDigitChar)
    else none
  | _ => none

/-- The fields `time.Parse` collects ("Time being constructed"). -/
structure Fields where
  year : Int := 0
  month : Int := -1
  day : Int := -1
  hour : Int := 0
  min : Int := 0
  sec : Int := 0
  nsec : Int := 0
deriving DecidableEq, Repr

/-- One `switch std & stdMask` step of `time.Parse`: read the layout element
`std` from the front of `value`.  `next` is the element that follows in the
layout (looked at by the seconds case).  `none` is a parse error. -/
def parseStd (std : Std) (next : Option Std) (f : Fields) (value : List Char) :
    Option (Fields × List Char) :=
  match std with
  | .stdLongYear =>
    match value with
    | c0 :: c1 :: c2 :: c3 :: rest =>
      if isDigitChar c0 && isDigitChar c1 && isDigitChar c2 && isDigitChar c3 then
        some ({ f with year := digitsVal 0 [c0, c1, c2, c3] }, rest)
      else none
    | _ => none
  | .stdZeroMonth =>
    match getnum value true with
    | none => none
    | some (month, rest) =>
      if month ≤ 0 ∨ 12 < month then none else some ({ f with month := month }, rest)
  | .stdZeroDay =>
    match getnum value true with
    | none => none
    | some (day, rest) => some ({ f with day := day }, rest)
  | .stdHour =>
    match getnum value false with
    | none => none
    | some (hour, rest) =>
      if hour < 0 ∨ 24 ≤ hour then none else some ({ f with hour := hour }, rest)
  | .stdZeroMinute =>
    match getnum value true with
    | none => none
    | some (min, rest) =>
      if min < 0 ∨ 60 ≤ min then none else some ({ f with min := min }, rest)
  | .stdZeroSecond =>
    match getnum value true with
    | none => none
    | some (sec, rest) =>
      if sec < 0 ∨ 60 ≤ sec then none
      else if next = some .stdFracSecond9 then some ({ f with sec := sec }, rest)
      else
        match fracSecond rest with
        | some (nsec, rest1) => some ({ f with sec := sec, nsec := nsec }, rest1)
        | none => some ({ f with sec := sec }, rest)
  | .stdFracSecond9 =>
    match fracSecond value with
    | some (nsec, rest) => some ({ f with nsec := nsec }, rest)
    | none => some (f, value)

/-- The main loop of `time.Parse`: skip the literal text, read the layout
element, go on with the rest; at the end of the layout no text may be left. -/
def parseLayout : Layout → Fields → List Char → Option Fields
  | .done lit, f, value =>
    match skip value lit with
    | some [] => some f
    | _ => none
  | .chunk lit std suffix, f, value =>
    match skip value lit with
    | none => none
    | some v =>
      match parseStd std suffix.nextStd f v with
      | none => none
      | some (f1, v1) => parseLayout suffix f1 v1

/-- Go `time.Parse(layout, value)`: `none` stands for a non-nil error.  After
the loop a missing month or day defaults to 1, the day of the month is
validated, and the instant is built in UTC.  Go walks the bytes of `value`, the
model walks its characters: every test of the parser is against an ASCII digit,
separator or literal of the layout, which a byte of a multi-byte character never
equals, so both accept the same texts with the same result. -/
def timeParse (layout : Layout) (value : String) : Option Time :=
  match parseLayout layout {} value.data with
  | none => none
  | some f =>
    let month := if f.month < 0 then 1 else f.month
    let day := if f.day < 0 then 1 else f.day
    if day < 1 ∨ daysIn month f.year < day then none
    else some (Date f.year month day f.hour f.min f.sec f.nsec)

/-! ## Effects -/

/-- An observable event of a run, in the order the source produces them. -/
inductive Event where
  /-- A line of `log.Debug`. -/
  | debug (msg : String)
  /-- A line of `log.Info`. -/
  | info (msg : String)
  /-- Text written by `fmt.Printf`. -/
  | stdout (text : String)
  /-- The HTTP request `gorequest.New().Get(uri).End()`. -/
  | get (uri : String)
  /-- The HTTP request `gorequest.New().Delete(uri).End()`. -/
  | delete (uri : String)
deriving DecidableEq, Repr

/-- The world reached by a run: its events, oldest first. -/
abbrev World := List Event

/-- The value a `panic(err)` of the source carries, by its origin. -/
inductive Panic where
  /-- The HTTP client returned errors (`makeRequest`, `deleteFactory`). -/
  | transport (err : String)
  /-- The error of `xml.Unmarshal` (`unmarshal`). -/
  | decode (data : String)
  /-- The panic of `regexp.MustCompile` on a pattern that does not compile. -/
  | invalidPattern (pattern : String)
  /-- The error of `time.Parse` on the given text (`find`, `generateTime`). -/
  | invalidTime (value : String)
deriving DecidableEq, Repr

/-- How a call ends: it returns `value`, or it panics; `world` is the world
reached at that point in both cases. -/
inductive Result (α : Type) where
  | ok (value : α) (world : World)
  | panic (err : Panic) (world : World)
deriving DecidableEq, Repr

/-- The world reached when the call ended. -/
def Result.world {α : Type} : Result α → World
  | .ok _ w => w
  | .panic _ w => w

/-- The call returned normally. -/
def Result.isOk {α : Type} : Result α → Bool
  | .ok _ _ => true
  | .panic _ _ => false

/-- A Go statement sequence with effects: from the world before to the result. -/
def Prog (α : Type) : Type := World → Result α

/-- Return without effect. -/
def Prog.pure {α : Type} (a : α) : Prog α := fun w => .ok a w

/-- Sequencing: a panic of the first part ends the whole. -/
def Prog.bind {α β : Type} (m : Prog α) (f : α → Prog β) : Prog β := fun w =>
  match m w with
  | .ok a w1 => f a w1
  | .panic e w1 => .panic e w1

instance : Monad Prog where
  pure := Prog.pure
  bind := Prog.bind

/-- Append one event to the world. -/
def emit (e : Event) : Prog Unit := fun w => .ok () (w ++ [e])

/-- The world reached so far (what a collaborator called now can depend on). -/
def getWorld : Prog World := fun w => .ok w w

/-- Go `panic(err)`. -/
def throwPanic {α : Type} (e : Panic) : Prog α := fun w => .panic e w

/-- Go `for _, x := range xs { body }`. -/
def forEach {α : Type} : List α → (α → Prog Unit) → Prog Unit
  | [], _ => Prog.pure ()
  | x :: rest, body => Prog.bind (body x) (fun _ => forEach rest body)

/-! ## Data of the listings -/

/-- Source `Repository` (local type of `listAllRepositories`). -/
structure Repository where
  resourceURI : String
  contentResourceURI : String
  name : String
  format : String
  id : String
  effectiveLocalStorageURL : String
deriving DecidableEq, Repr

/-- Source `ContentItem` (local type of `find`). -/
structure ContentItem where
  text : String
  leaf : Bool
  lastModified : String
  resourceURI : String
deriving DecidableEq, Repr

/-- The collaborators outside the repository.  The answers of the HTTP server
may depend on everything that happened before the request. -/
structure Env where
  /-- Go `regexp.Compile(pattern)` followed by `MatchString`: `none` when the
  pattern does not compile. -/
  regexpCompile : String → Option (String → Bool)
  /-- `gorequest` GET: the status line and the body, or the error text. -/
  httpGet : World → String → Except String (String × String)
  /-- `gorequest` DELETE: the status line, or the error text. -/
  httpDelete : World → String → Except String String
  /-- `xml.Unmarshal` into the `Query` of `listAllRepositories`: its
  `Data.RepositoryList`. -/
  xmlRepositories : String → Option (List Repository)
  /-- `xml.Unmarshal` into the `Query` of `find`: its `Data.ContentItemList`. -/
  xmlContent : String → Option (List ContentItem)

/-- An action over a matched item: Go `func(URI, modified string)`. -/
abbrev Action := String → String → Prog Unit

/-! ## The program -/

/-- Source `unmarshal`, for the decoder `decode` of the query type at hand. -/
def unmarshal {α : Type} (decode : String → Option α) (data : String) : Prog α :=
  match decode data with
  | some q => Prog.pure q
  | none => throwPanic (.decode data)

/-- Source `makeRequest`. -/
def makeRequest (env : Env) (uri : String) : Prog String := do
  emit (.debug ("URI:" ++ uri))
  let w ← getWorld
  emit (.get uri)
  match env.httpGet w uri with
  | .error err => throwPanic (.transport err)
  | .ok (status, body) =>
    emit (.debug status)
    pure body

/-- Source `listAllRepositories`. -/
def listAllRepositories (env : Env) (host : String) : Prog Unit := do
  let path := "service/local/all_repositories"
  let data ← makeRequest env (host ++ path)
  let q ← unmarshal env.xmlRepositories data
  emit (.stdout ("--== Found " ++ toString q.length ++ " repositories ==-- \n"))
  forEach q fun repository =>
    emit (.stdout (repository.id ++ ";\t\t" ++ repository.name ++ ";\t" ++ repository.format ++ "\n"))

/-- Source `deleteFactory`. -/
def deleteFactory (env : Env) (dryrun : Bool) : Action := fun uri _modified => do
  emit (.info ("Deleting: " ++ uri))
  if !dryrun then
    let w ← getWorld
    emit (.delete uri)
    match env.httpDelete w uri with
    | .error err => throwPanic (.transport err)
    | .ok status => emit (.debug ("Result (status): " ++ status))
  else
    emit (.debug "Nothign done dry-run")

/-- Source `show` (renamed: `show` is a keyword). -/
def showItem : Action := fun URI modified =>
  emit (.stdout ("\t" ++ modified ++ "\t" ++ URI ++ "\n"))

/-- The body of the `for` loop of `find` for one item. -/
def findItem (env : Env) (pattern : String) (olderThan : Time) (fn : Action)
    (repository : ContentItem) : Prog Unit :=
  match env.regexpCompile pattern with
  | none => throwPanic (.invalidPattern pattern)
  | some validID =>
    if validID repository.resourceURI then
      match timeParse nexusTimeLayout repository.lastModified with
      | none => throwPanic (.invalidTime repository.lastModified)
      | some lastModified =>
        if lastModified.Before olderThan then
          fn repository.resourceURI repository.lastModified
        else Prog.pure ()
    else Prog.pure ()

/-- The `for` loop of `find` over the decoded listing. -/
def findItems (env : Env) (pattern : String) (olderThan : Time) (fn : Action)
    (items : List ContentItem) : Prog Unit :=
  forEach items (findItem env pattern olderThan fn)

/-- Source `find`. -/
def find (env : Env) (uri pattern : String) (olderThan : Time) (fn : Action) : Prog Unit := do
  let data ← makeRequest env uri
  let q ← unmarshal env.xmlContent data
  findItems env pattern olderThan fn q

/-- Source `generateTime`: the full date-time layout first, the date-only
layout second; the panic carries the text that matched neither. -/
def generateTime (timeString : String) : Except Panic Time :=
  match timeParse timeLayout timeString with
  | some timeTime => .ok timeTime
  | none =>
    match timeParse timeLayoutShort timeString with
    | some timeTime => .ok timeTime
    | none => .error (.invalidTime timeString)

/-- Go `strings.Split(s, sep)` for a one-character separator, on the
characters of `s`. -/
def splitChars (sep : Char) : List Char → List (List Char)
  | [] => [[]]
  | c :: cs =>
    if c = sep then [] :: splitChars sep cs
    else
      match splitChars sep cs with
      | [] => [[c]]
      | first :: more => (c :: first) :: more

/-- Go `strings.Split(s, ",")`. -/
def stringsSplit (s : String) : List String :=
  (splitChars ',' s.data).map String.mk

/-- The command line after `flag.Parse()`. -/
structure Flags where
  /-- Flag `-repo-list`. -/
  listRepos : Bool
  /-- Flag `-list`. -/
  showContent : Bool
  /-- Flag `-delete`. -/
  delete : Bool
  /-- Flag `-dry-run`. -/
  dryRun : Bool
  /-- Flag `-host`. -/
  argHost : String
  /-- Flag `-repository`. -/
  argRepo : String
  /-- Flag `-path`. -/
  argPath : String
  /-- Flag `-regexp`. -/
  regexpPattern : String
  /-- Flag `-before`. -/
  beforeTime : String
deriving Repr

/-- The `operation` variable of `main` after the `if` chain (`none` is `nil`). -/
def selectOperation (env : Env) (flags : Flags) : Option Action :=
  if flags.showContent then some showItem
  else if flags.delete then some (deleteFactory env flags.dryRun)
  else none

/-- Source `main`, after `flag.Parse()`. -/
def main (env : Env) (flags : Flags) : Prog Unit :=
  match generateTime flags.beforeTime with
  | .error e => throwPanic e
  | .ok olderTime =>
    let operation := selectOperation env flags
    forEach (stringsSplit flags.argHost) fun hostName =>
      let host := "http://" ++ hostName ++ "/nexus/"
      if flags.listRepos then
        listAllRepositories env host
      else
        match operation with
        | some op =>
          forEach (stringsSplit flags.argRepo) fun repo =>
            forEach (stringsSplit flags.argPath) fun path =>
              let URI := host ++ "service/local/repositories/" ++ repo ++ "/content/" ++ path
              find env URI flags.regexpPattern olderTime op
        | none => Prog.pure ()

/-! ## Specification-side definitions -/

/-- Spec (MatchFilter): a record is selected iff the pattern matches its
resource URI and its last-modified instant, parsed with the wire layout, is
strictly before the cutoff. -/
def selected (re : String → Bool) (cutoff : Time) (item : ContentItem) : Bool :=
  re item.resourceURI &&
    match timeParse nexusTimeLayout item.lastModified with
    | some lastModified => lastModified.Before cutoff
    | none => false

/-- Apply an action to a content item: `fn(item.ResourceURI, item.LastModified)`. -/
def applyTo (fn : Action) (item : ContentItem) : Prog Unit :=
  fn item.resourceURI item.lastModified

/-- Spec variant of the loop body of `find` with the two predicates in the
other order: the timestamp is parsed and compared first, the pattern is tested
second. -/
def findItemTimeFirst (env : Env) (pattern : String) (olderThan : Time) (fn : Action)
    (repository : ContentItem) : Prog Unit :=
  match env.regexpCompile pattern with
  | none => throwPanic (.invalidPattern pattern)
  | some validID =>
    match timeParse nexusTimeLayout repository.lastModified with
    | none => throwPanic (.invalidTime repository.lastModified)
    | some lastModified =>
      if lastModified.Before olderThan then
        if validID repository.resourceURI then
          fn repository.resourceURI repository.lastModified
        else Prog.pure ()
      else Prog.pure ()

/-- Spec variant of the loop of `find`: timestamp first, pattern second. -/
def findItemsTimeFirst (env : Env) (pattern : String) (olderThan : Time) (fn : Action)
    (items : List ContentItem) : Prog Unit :=
  forEach items (findItemTimeFirst env pattern olderThan fn)

/-- Spec: the text is a valid calendar date written `YYYY-MM-DD`: four digits,
a dash, two digits, a dash, two digits, with the month in 1..12 and the day in
1..the number of days of that month in that year. -/
def isCalendarDate (s : String) : Bool :=
  match s.data with
  | [y0, y1, y2, y3, c4, m0, m1, c7, d0, d1] =>
    isDigitChar y0 && isDigitChar y1 && isDigitChar y2 && isDigitChar y3 &&
    decide (c4 = '-') && isDigitChar m0 && isDigitChar m1 &&
    decide (c7 = '-') && isDigitChar d0 && isDigitChar d1 &&
    decide (1 ≤ digitsVal 0 [m0, m1]) && decide (digitsVal 0 [m0, m1] ≤ 12) &&
    decide (1 ≤ digitsVal 0 [d0, d1]) &&
    decide (digitsVal 0 [d0, d1] ≤ daysIn (digitsVal 0 [m0, m1]) (digitsVal 0 [y0, y1, y2, y3]))
  | _ => false

/-- Spec: the year written in a `YYYY-MM-DD` text: the value of its first four
characters. -/
def dateYear (s : String) : Int :=
  digitsVal 0 (s.data.take 4)

/-- Spec: the month written in a `YYYY-MM-DD` text: the value of the two
characters after the first dash. -/
def dateMonth (s : String) : Int :=
  digitsVal 0 ((s.data.drop 5).take 2)

/-- Spec: the day written in a `YYYY-MM-DD` text: the value of the two
characters after the second dash. -/
def dateDay (s : String) : Int :=
  digitsVal 0 ((s.data.drop 8).take 2)

/-- The event is an HTTP DELETE request. -/
def Event.isDelete : Event → Bool
  | .delete _ => true
  | _ => false

/-- The event is an HTTP request (GET or DELETE). -/
def Event.isRequest : Event → Bool
  | .get _ => true
  | .delete _ => true
  | _ => false

/-- Spec: whatever the starting world and the outcome, the program only appends
events, and each appended event satisfies `P`. -/
def AddsOnly {α : Type} (P : Event → Prop) (m : Prog α) : Prop :=
  ∀ w, ∃ added, (m w).world = w ++ added ∧ ∀ e ∈ added, P e

/-- Spec: the two log lines of a dry-run Delete for one record: the intent and
the dry-run note. -/
def dryRunLines (item : ContentItem) : List Event :=
  [.info ("Deleting: " ++ item.resourceURI), .debug "Nothign done dry-run"]

/-- Spec: the listing URI of a (host, repository, path) triple. -/
def listingURI (host repo path : String) : String :=
  "http://" ++ host ++ "/nexus/service/local/repositories/" ++ repo ++ "/content/" ++ path

/-- Spec: the URI of the repository list of a host. -/
def repositoriesURI (host : String) : String :=
  "http://" ++ host ++ "/nexus/service/local/all_repositories"

/-- Spec: the (host, repository, path) triples in declaration order: host-major,
then repository, then path. -/
def triples (hosts repos paths : List String) : List (String × String × String) :=
  hosts.flatMap fun host => repos.flatMap fun repo => paths.map fun path => (host, repo, path)

/-- Spec: the scan as one `find` per triple, in the order of `triples`, after
the cutoff has been resolved. -/
def scanTriples (env : Env) (flags : Flags) (op : Action) : Prog Unit := fun w =>
  match generateTime flags.beforeTime with
  | .error e => .panic e w
  | .ok olderTime =>
    forEach (triples (stringsSplit flags.argHost) (stringsSplit flags.argRepo)
        (stringsSplit flags.argPath))
      (fun t => find env (listingURI t.1 t.2.1 t.2.2) flags.regexpPattern olderTime op) w

/-- Spec: the repository listing as one `listAllRepositories` per host, after
the cutoff has been resolved. -/
def listHosts (env : Env) (flags : Flags) : Prog Unit := fun w =>
  match generateTime flags.beforeTime with
  | .error e => .panic e w
  | .ok _ =>
    forEach (stringsSplit flags.argHost)
      (fun hostName => listAllRepositories env ("http://" ++ hostName ++ "/nexus/")) w

/-- The URIs of the GET requests of a world, oldest first: the listing calls. -/
def listingCalls (w : World) : List String :=
  w.filterMap fun e =>
    match e with
    | .get uri => some uri
    | _ => none

/-! ## Sample data for the worked examples -/

/-- A regular-expression engine for the examples.  It agrees with Go's `regexp`
on the three patterns the examples use: `.*` matches every text, `jar$` matches
the texts that end in `jar`, and `[` does not compile (missing closing bracket).
Any other pattern is treated as not compiling. -/
def sampleCompile (pattern : String) : Option (String → Bool) :=
  if pattern = ".*" then some (fun _ => true)
  else if pattern = "jar$" then some (fun text => "jar".data.isSuffixOf text.data)
  else none

/-- A server for the examples: every GET answers `200 OK` with the request URI
as body, every DELETE answers `204 No Content`; the decoders return the listing
`items` for every body. -/
def sampleEnv (items : List ContentItem) : Env where
  regexpCompile := sampleCompile
  httpGet := fun _ uri => .ok ("200 OK", uri)
  httpDelete := fun _ _ => .ok "204 No Content"
  xmlRepositories := fun _ => some []
  xmlContent := fun _ => some items

/-- A server that cannot be reached: every request fails. -/
def downEnv : Env where
  regexpCompile := sampleCompile
  httpGet := fun _ _ => .error "connection refused"
  httpDelete := fun _ _ => .error "connection refused"
  xmlRepositories := fun _ => none
  xmlContent := fun _ => none

/-- Record `A`, last modified 2023-01-01. -/
def itemA : ContentItem :=
  { text := "a.jar", leaf := true, lastModified := "2023-01-01 00:00:00.0 UTC",
    resourceURI := "http://h1/a.jar" }

/-- Record `B`, last modified 2023-06-01. -/
def itemB : ContentItem :=
  { text := "b.jar", leaf := true, lastModified := "2023-06-01 00:00:00.0 UTC",
    resourceURI := "http://h1/b.jar" }

/-- Record `C`, last modified 2023-03-01. -/
def itemC : ContentItem :=
  { text := "c.jar", leaf := true, lastModified := "2023-03-01 00:00:00.0 UTC",
    resourceURI := "http://h1/c.jar" }

/-- A directory entry that no `jar$` pattern matches and whose timestamp is not
in the wire layout. -/
def itemDir : ContentItem :=
  { text := "docs", leaf := false, lastModified := "yesterday",
    resourceURI := "http://h1/docs/" }

/-- An artifact whose timestamp is not in the wire layout (the zone literal is
missing). -/
def itemBad : ContentItem :=
  { text := "x.jar", leaf := true, lastModified := "2023-02-01 00:00:00.0",
    resourceURI := "http://h1/x.jar" }

/-- A text file that no `jar$` pattern matches, with a timestamp in the wire
layout, last modified 2022-05-05. -/
def itemTxt : ContentItem :=
  { text := "readme.txt", leaf := true, lastModified := "2022-05-05 00:00:00.0 UTC",
    resourceURI := "http://h1/readme.txt" }

/-- A command line for the examples: hosts `h1,h2`, repositories `r1,r2`, path
`p1`, pattern `.*`, cutoff 2023-12-31, with the given mode flags. -/
def sampleFlags (listRepos showContent delete dryRun : Bool) : Flags :=
  { listRepos := listRepos, showContent := showContent, delete := delete, dryRun := dryRun,
    argHost := "h1,h2", argRepo := "r1,r2", argPath := "p1",
    regexpPattern := ".*", beforeTime := "2023-12-31" }

/-! ## Basic lemmas -/

@[simp] theorem bind_eq {α β : Type} (m : Prog α) (f : α → Prog β) :
    (m >>= f) = Prog.bind m f := rfl

@[simp] theorem pure_eq {α : Type} (a : α) : (Pure.pure a : Prog α) = Prog.pure a := rfl

@[simp] theorem Prog.pure_apply {α : Type} (a : α) (w : World) :
    Prog.pure a w = .ok a w := rfl

@[simp] theorem throwPanic_apply {α : Type} (e : Panic) (w : World) :
    (throwPanic e : Prog α) w = .panic e w := rfl

@[simp] theorem emit_apply (e : Event) (w : World) : emit e w = .ok () (w ++ [e]) := rfl

@[simp] theorem getWorld_apply (w : World) : getWorld w = .ok w w := rfl

theorem Prog.bind_apply {α β : Type} (m : Prog α) (f : α → Prog β) (w : World) :
    Prog.bind m f w = match m w with
      | .ok a w1 => f a w1
      | .panic e w1 => .panic e w1 := rfl

@[simp] theorem Prog.pure_bind {α β : Type} (a : α) (f : α → Prog β) :
    Prog.bind (Prog.pure a) f = f a := rfl

@[simp] theorem Prog.bind_pure_unit (m : Prog Unit) :
    Prog.bind m (fun _ => Prog.pure ()) = m := by
  funext w
  simp only [Prog.bind_apply]
  cases m w <;> rfl

theorem Prog.bind_assoc {α β γ : Type} (m : Prog α) (f : α → Prog β) (g : β → Prog γ) :
    Prog.bind (Prog.bind m f) g = Prog.bind m (fun a => Prog.bind (f a) g) := by
  funext w
  simp only [Prog.bind_apply]
  cases m w <;> rfl

@[simp] theorem forEach_nil {α : Type} (body : α → Prog Unit) :
    forEach [] body = Prog.pure () := rfl

@[simp] theorem forEach_cons {α : Type} (x : α) (rest : List α) (body : α → Prog Unit) :
    forEach (x :: rest) body = Prog.bind (body x) (fun _ => forEach rest body) := rfl

theorem forEach_append {α : Type} (xs ys : List α) (body : α → Prog Unit) :
    forEach (xs ++ ys) body = Prog.bind (forEach xs body) (fun _ => forEach ys body) := by
  induction xs with
  | nil => simp
  | cons x rest ih => simp [ih, Prog.bind_assoc]

/-- One iteration of the loop of `find` on an item that is selected. -/
theorem findItem_selected (env : Env) (pattern : String) (re : String → Bool)
    (olderThan : Time) (fn : Action) (item : ContentItem)
    (hre : env.regexpCompile pattern = some re)
    (hsel : selected re olderThan item = true) :
    findItem env pattern olderThan fn item = applyTo fn item := by
  unfold selected at hsel
  unfold findItem applyTo
  rw [hre]
  cases hp : timeParse nexusTimeLayout item.lastModified with
  | none => simp [hp] at hsel
  | some t =>
    simp only [hp, Bool.and_eq_true] at hsel
    simp [hsel.1, hsel.2]

/-- One iteration of the loop of `find` on an item that is not selected and
whose timestamp parses if the pattern matches. -/
theorem findItem_not_selected (env : Env) (pattern : String) (re : String → Bool)
    (olderThan : Time) (fn : Action) (item : ContentItem)
    (hre : env.regexpCompile pattern = some re)
    (hparse : re item.resourceURI = true →
      (timeParse nexusTimeLayout item.lastModified).isSome = true)
    (hsel : selected re olderThan item = false) :
    findItem env pattern olderThan fn item = Prog.pure () := by
  unfold selected at hsel
  unfold findItem
  rw [hre]
  by_cases hm : re item.resourceURI = true
  · have hp := hparse hm
    cases hp2 : timeParse nexusTimeLayout item.lastModified with
    | none => simp [hp2] at hp
    | some t =>
      simp only [hp2, hm, Bool.true_and] at hsel
      simp [hm, hsel]
  · simp [hm]

/-- The loop of `find` applies the action to the selected items, in order. -/
theorem findItems_eq_forEach_selected (env : Env) (pattern : String)
    (re : String → Bool) (olderThan : Time) (fn : Action) (items : List ContentItem)
    (hre : env.regexpCompile pattern = some re)
    (hparse : ∀ item ∈ items, re item.resourceURI = true →
      (timeParse nexusTimeLayout item.lastModified).isSome = true) :
    findItems env pattern olderThan fn items
      = forEach (items.filter (selected re olderThan)) (applyTo fn) := by
  induction items with
  | nil => rfl
  | cons item rest ih =>
    have ih1 := ih (fun x hx => hparse x (List.mem_cons_of_mem _ hx))
    unfold findItems at ih1 ⊢
    rw [forEach_cons, ih1]
    cases hsel : selected re olderThan item with
    | true =>
      rw [List.filter_cons_of_pos hsel, forEach_cons,
        findItem_selected env pattern re olderThan fn item hre hsel]
    | false =>
      rw [List.filter_cons_of_neg (by simp [hsel]),
        findItem_not_selected env pattern re olderThan fn item hre
          (hparse item (List.mem_cons_self _ _)) hsel, Prog.pure_bind]

/-- Membership in the selection, spelled out. -/
theorem selected_iff (re : String → Bool) (olderThan : Time) (item : ContentItem) :
    selected re olderThan item = true ↔
      re item.resourceURI = true ∧
        ∃ t, timeParse nexusTimeLayout item.lastModified = some t ∧ t.Before olderThan = true := by
  unfold selected
  cases timeParse nexusTimeLayout item.lastModified <;> simp

/-- Strictness of `Before`: no instant is before itself. -/
theorem Time.Before_irrefl (t : Time) : t.Before t = false := by
  simp [Time.Before]

/-- A loop whose body only emits one event per element appends the events in
order. -/
theorem forEach_emit {α : Type} (xs : List α) (g : α → Event) (w : World) :
    forEach xs (fun x => emit (g x)) w = .ok () (w ++ xs.map g) := by
  induction xs generalizing w with
  | nil => simp
  | cons x rest ih => simp [Prog.bind_apply, ih]

/-- The first element of a list with a property splits the list. -/
theorem exists_first_split {α : Type} (p : α → Prop) (xs : List α)
    (h : ∃ x ∈ xs, p x) :
    ∃ pre bad post, xs = pre ++ bad :: post ∧ p bad ∧ ∀ x ∈ pre, ¬ p x := by
  induction xs with
  | nil => obtain ⟨x, hx, _⟩ := h; cases hx
  | cons y rest ih =>
    by_cases hy : p y
    · exact ⟨[], y, rest, rfl, hy, fun x hx => by cases hx⟩
    · have hrest : ∃ x ∈ rest, p x := by
        obtain ⟨x, hx, hpx⟩ := h
        rcases List.mem_cons.1 hx with rfl | hx
        · exact absurd hpx hy
        · exact ⟨x, hx, hpx⟩
      obtain ⟨pre, bad, post, hsplit, hbad, hpre⟩ := ih hrest
      refine ⟨y :: pre, bad, post, by rw [hsplit]; rfl, hbad, fun x hx => ?_⟩
      rcases List.mem_cons.1 hx with rfl | hx
      · exact hy
      · exact hpre x hx

/-- One iteration of the loop of `find` on a pattern-matching item whose
timestamp does not parse. -/
theorem findItem_malformed (env : Env) (pattern : String) (re : String → Bool)
    (olderThan : Time) (fn : Action) (item : ContentItem)
    (hre : env.regexpCompile pattern = some re)
    (hm : re item.resourceURI = true)
    (hp : timeParse nexusTimeLayout item.lastModified = none) :
    findItem env pattern olderThan fn item = throwPanic (.invalidTime item.lastModified) := by
  unfold findItem
  rw [hre]
  simp [hm, hp]

/-- Sequencing with a panic never returns normally. -/
theorem bind_throwPanic_not_ok (m : Prog Unit) (e : Panic) (w : World) :
    (Prog.bind m (fun _ => (throwPanic e : Prog Unit)) w).isOk = false := by
  simp only [Prog.bind_apply]
  cases m w <;> rfl

/-- Two loop bodies that agree on the elements of the list give the same loop. -/
theorem forEach_congr {α : Type} (xs : List α) (f g : α → Prog Unit)
    (h : ∀ x ∈ xs, f x = g x) : forEach xs f = forEach xs g := by
  induction xs with
  | nil => rfl
  | cons x rest ih =>
    rw [forEach_cons, forEach_cons, h x (List.mem_cons_self _ _),
      ih (fun y hy => h y (List.mem_cons_of_mem _ hy))]

/-- The listing call of `find`: when the GET succeeds and the body decodes to
`items`, `find` is its loop over `items`, started after the three events of
`makeRequest`. -/
theorem find_eq_findItems (env : Env) (uri pattern : String) (olderThan : Time)
    (fn : Action) (w : World) (status body : String) (items : List ContentItem)
    (hget : env.httpGet (w ++ [.debug ("URI:" ++ uri)]) uri = .ok (status, body))
    (hdec : env.xmlContent body = some items) :
    find env uri pattern olderThan fn w
      = findItems env pattern olderThan fn items
          (w ++ [.debug ("URI:" ++ uri), .get uri, .debug status]) := by
  simp [find, makeRequest, unmarshal, Prog.bind_apply, hget, hdec]

/-- What `makeRequest` does, by the answer of the server. -/
theorem makeRequest_apply (env : Env) (uri : String) (w : World) :
    makeRequest env uri w =
      match env.httpGet (w ++ [.debug ("URI:" ++ uri)]) uri with
      | .error err => .panic (.transport err) (w ++ [.debug ("URI:" ++ uri), .get uri])
      | .ok (status, body) =>
        .ok body (w ++ [.debug ("URI:" ++ uri), .get uri, .debug status]) := by
  simp only [makeRequest, bind_eq, pure_eq, Prog.bind_apply, emit_apply, getWorld_apply]
  cases h : env.httpGet (w ++ [.debug ("URI:" ++ uri)]) uri with
  | error err => simp
  | ok r => obtain ⟨status, body⟩ := r; simp [Prog.bind_apply]

/-- What a dry-run Delete does. -/
theorem deleteFactory_dry_run_apply (env : Env) (uri modified : String) (w : World) :
    deleteFactory env true uri modified w
      = .ok () (w ++ [.info ("Deleting: " ++ uri), .debug "Nothign done dry-run"]) := by
  simp [deleteFactory, Prog.bind_apply]

/-- What a real Delete does, by the answer of the server. -/
theorem deleteFactory_real_apply (env : Env) (uri modified : String) (w : World) :
    deleteFactory env false uri modified w =
      match env.httpDelete (w ++ [.info ("Deleting: " ++ uri)]) uri with
      | .error err =>
        .panic (.transport err) (w ++ [.info ("Deleting: " ++ uri), .delete uri])
      | .ok status =>
        .ok () (w ++ [.info ("Deleting: " ++ uri), .delete uri,
          .debug ("Result (status): " ++ status)]) := by
  simp only [deleteFactory, bind_eq, Prog.bind_apply, emit_apply]
  cases h : env.httpDelete (w ++ [.info ("Deleting: " ++ uri)]) uri with
  | error err => simp [Prog.bind_apply, h]
  | ok status => simp [Prog.bind_apply, h]

/-- A loop whose body appends a fixed list of events per element appends them
in order. -/
theorem forEach_appends {α : Type} (xs : List α) (body : α → Prog Unit)
    (g : α → List Event) (h : ∀ x w, body x w = .ok () (w ++ g x)) (w : World) :
    forEach xs body w = .ok () (w ++ xs.flatMap g) := by
  induction xs generalizing w with
  | nil => simp
  | cons x rest ih => simp [Prog.bind_apply, h, ih]

theorem AddsOnly.pure {α : Type} (P : Event → Prop) (a : α) :
    AddsOnly P (Prog.pure a) :=
  fun w => ⟨[], by simp [Result.world], fun e he => by cases he⟩

theorem AddsOnly.throwPanic {α : Type} (P : Event → Prop) (err : Panic) :
    AddsOnly P (throwPanic err : Prog α) :=
  fun w => ⟨[], by simp [Result.world], fun e he => by cases he⟩

theorem AddsOnly.bind {α β : Type} (P : Event → Prop) (m : Prog α) (f : α → Prog β)
    (hm : AddsOnly P m) (hf : ∀ a, AddsOnly P (f a)) : AddsOnly P (Prog.bind m f) := by
  intro w
  obtain ⟨added, hw, hP⟩ := hm w
  rw [Prog.bind_apply]
  cases hr : m w with
  | panic e w1 =>
    rw [hr] at hw
    exact ⟨added, hw, hP⟩
  | ok a w1 =>
    rw [hr] at hw
    simp only [Result.world] at hw
    obtain ⟨added2, hw2, hP2⟩ := hf a w1
    subst hw
    refine ⟨added ++ added2, ?_, fun e he => ?_⟩
    · rw [hw2, List.append_assoc]
    · rcases List.mem_append.1 he with h | h
      · exact hP e h
      · exact hP2 e h

theorem AddsOnly.forEach {α : Type} (P : Event → Prop) (xs : List α) (body : α → Prog Unit)
    (h : ∀ x, AddsOnly P (body x)) : AddsOnly P (forEach xs body) := by
  induction xs with
  | nil => exact AddsOnly.pure P ()
  | cons x rest ih => exact AddsOnly.bind P _ _ (h x) (fun _ => ih)

theorem AddsOnly.makeRequest (P : Event → Prop) (env : Env) (uri : String)
    (hdebug : ∀ msg, P (.debug msg)) (hget : ∀ u, P (.get u)) :
    AddsOnly P (makeRequest env uri) := by
  intro w
  rw [makeRequest_apply]
  cases h : env.httpGet (w ++ [.debug ("URI:" ++ uri)]) uri with
  | error err =>
    refine ⟨[.debug ("URI:" ++ uri), .get uri], rfl, fun e he => ?_⟩
    simp only [List.mem_cons, List.mem_singleton, List.not_mem_nil, or_false] at he
    rcases he with rfl | rfl
    · exact hdebug _
    · exact hget _
  | ok r =>
    obtain ⟨status, body⟩ := r
    refine ⟨[.debug ("URI:" ++ uri), .get uri, .debug status], rfl, fun e he => ?_⟩
    simp only [List.mem_cons, List.mem_singleton, List.not_mem_nil, or_false] at he
    rcases he with rfl | rfl | rfl
    · exact hdebug _
    · exact hget _
    · exact hdebug _

theorem AddsOnly.unmarshal {α : Type} (P : Event → Prop) (decode : String → Option α)
    (data : String) : AddsOnly P (unmarshal decode data) := by
  unfold NexusCli.unmarshal
  cases decode data with
  | none => exact AddsOnly.throwPanic P _
  | some q => exact AddsOnly.pure P q

theorem AddsOnly.emit (P : Event → Prop) (e : Event) (h : P e) : AddsOnly P (emit e) :=
  fun w => ⟨[e], rfl, fun e1 he => by
    rw [List.mem_singleton] at he
    exact he ▸ h⟩

theorem AddsOnly.findItem (P : Event → Prop) (env : Env) (pattern : String)
    (olderThan : Time) (fn : Action) (item : ContentItem)
    (hfn : ∀ uri modified, AddsOnly P (fn uri modified)) :
    AddsOnly P (findItem env pattern olderThan fn item) := by
  unfold NexusCli.findItem
  cases env.regexpCompile pattern with
  | none => exact AddsOnly.throwPanic P _
  | some re =>
    simp only
    split
    · cases timeParse nexusTimeLayout item.lastModified with
      | none => exact AddsOnly.throwPanic P _
      | some t =>
        simp only
        split
        · exact hfn _ _
        · exact AddsOnly.pure P ()
    · exact AddsOnly.pure P ()

theorem AddsOnly.findItems (P : Event → Prop) (env : Env) (pattern : String)
    (olderThan : Time) (fn : Action) (items : List ContentItem)
    (hfn : ∀ uri modified, AddsOnly P (fn uri modified)) :
    AddsOnly P (findItems env pattern olderThan fn items) :=
  AddsOnly.forEach P items _ (fun item => AddsOnly.findItem P env pattern olderThan fn item hfn)

theorem AddsOnly.find (P : Event → Prop) (env : Env) (uri pattern : String)
    (olderThan : Time) (fn : Action)
    (hdebug : ∀ msg, P (.debug msg)) (hget : ∀ u, P (.get u))
    (hfn : ∀ uri modified, AddsOnly P (fn uri modified)) :
    AddsOnly P (find env uri pattern olderThan fn) := by
  unfold NexusCli.find
  simp only [bind_eq]
  exact AddsOnly.bind P _ _ (AddsOnly.makeRequest P env uri hdebug hget)
    (fun data => AddsOnly.bind P _ _ (AddsOnly.unmarshal P _ data)
      (fun q => AddsOnly.findItems P env pattern olderThan fn q hfn))

theorem AddsOnly.listAllRepositories (P : Event → Prop) (env : Env) (host : String)
    (hdebug : ∀ msg, P (.debug msg)) (hget : ∀ u, P (.get u))
    (hout : ∀ text, P (.stdout text)) :
    AddsOnly P (listAllRepositories env host) := by
  unfold NexusCli.listAllRepositories
  simp only [bind_eq]
  exact AddsOnly.bind P _ _ (AddsOnly.makeRequest P env _ hdebug hget)
    (fun data => AddsOnly.bind P _ _ (AddsOnly.unmarshal P _ data)
      (fun q => AddsOnly.bind P _ _ (AddsOnly.emit P _ (hout _))
        (fun _ => AddsOnly.forEach P q _ (fun r => AddsOnly.emit P _ (hout _)))))

theorem AddsOnly.showItem (P : Event → Prop) (hout : ∀ text, P (.stdout text))
    (uri modified : String) : AddsOnly P (showItem uri modified) :=
  AddsOnly.emit P _ (hout _)

theorem AddsOnly.deleteFactory_dry_run (P : Event → Prop) (env : Env)
    (hdebug : ∀ msg, P (.debug msg)) (hinfo : ∀ msg, P (.info msg))
    (uri modified : String) : AddsOnly P (deleteFactory env true uri modified) := by
  intro w
  rw [deleteFactory_dry_run_apply]
  refine ⟨[.info ("Deleting: " ++ uri), .debug "Nothign done dry-run"], rfl, fun e he => ?_⟩
  simp only [List.mem_cons, List.mem_singleton, List.not_mem_nil, or_false] at he
  rcases he with rfl | rfl
  · exact hinfo _
  · exact hdebug _

/-- Every part of `main` other than a real Delete only appends events that are
not DELETE requests. -/
theorem AddsOnly.main_dry_run (env : Env) (flags : Flags) (hdry : flags.dryRun = true) :
    AddsOnly (fun e => e.isDelete = false) (main env flags) := by
  unfold NexusCli.main
  cases generateTime flags.beforeTime with
  | error e => exact AddsOnly.throwPanic _ _
  | ok olderTime =>
    simp only
    refine AddsOnly.forEach _ _ _ (fun hostName => ?_)
    split
    · exact AddsOnly.listAllRepositories _ env _ (fun _ => rfl) (fun _ => rfl) (fun _ => rfl)
    · unfold selectOperation
      rw [hdry]
      split
      · rename_i op hop
        refine AddsOnly.forEach _ _ _ (fun repo => AddsOnly.forEach _ _ _ (fun path => ?_))
        refine AddsOnly.find _ env _ _ _ op (fun _ => rfl) (fun _ => rfl) ?_
        split at hop
        · cases hop
          exact AddsOnly.showItem _ (fun _ => rfl)
        · split at hop
          · cases hop
            exact AddsOnly.deleteFactory_dry_run _ env (fun _ => rfl) (fun _ => rfl)
          · cases hop
      · exact AddsOnly.pure _ ()

/-- A loop over a mapped list is the loop over the list with the composed body. -/
theorem forEach_map {α β : Type} (xs : List α) (f : α → β) (body : β → Prog Unit) :
    forEach (xs.map f) body = forEach xs (fun x => body (f x)) := by
  induction xs with
  | nil => rfl
  | cons x rest ih => simp [ih]

/-- A nested loop is the loop over the concatenation of the inner lists. -/
theorem forEach_flatMap {α β : Type} (xs : List α) (f : α → List β) (body : β → Prog Unit) :
    forEach (xs.flatMap f) body = forEach xs (fun x => forEach (f x) body) := by
  induction xs with
  | nil => rfl
  | cons x rest ih => simp [List.flatMap_cons, forEach_append, ih]

/-- A loop that does nothing. -/
theorem forEach_pure {α : Type} (xs : List α) :
    forEach xs (fun _ => Prog.pure ()) = Prog.pure () := by
  induction xs with
  | nil => rfl
  | cons x rest ih => simp [ih]

/-- The URI `main` builds for a triple is the listing URI of the triple. -/
theorem main_uri_eq (host repo path : String) :
    "http://" ++ host ++ "/nexus/" ++ "service/local/repositories/" ++ repo ++ "/content/" ++ path
      = listingURI host repo path := by
  unfold listingURI
  have h : "http://" ++ host ++ "/nexus/" ++ "service/local/repositories/"
      = "http://" ++ host ++ "/nexus/service/local/repositories/" := by
    rw [String.append_assoc ("http://" ++ host)]
    rfl
  rw [h]

/-- The number of (repository, path) pairs of one host. -/
theorem pairs_length (host : String) (repos paths : List String) :
    (repos.flatMap fun repo => paths.map fun path => (host, repo, path)).length
      = repos.length * paths.length := by
  induction repos with
  | nil => simp
  | cons r more ih =>
    rw [List.flatMap_cons, List.length_append, ih, List.length_map, List.length_cons]
    ring

/-- The number of triples. -/
theorem triples_length (hosts repos paths : List String) :
    (triples hosts repos paths).length = hosts.length * repos.length * paths.length := by
  unfold triples
  induction hosts with
  | nil => simp
  | cons h rest ih =>
    rw [List.flatMap_cons, List.length_append, ih, pairs_length, List.length_cons]
    ring

/-- In scan mode with an operation selected, `main` is one `find` per triple. -/
theorem main_eq_scanTriples (env : Env) (flags : Flags) (op : Action)
    (hmode : flags.listRepos = false) (hop : selectOperation env flags = some op) :
    main env flags = scanTriples env flags op := by
  funext w
  unfold main scanTriples
  cases generateTime flags.beforeTime with
  | error e => rfl
  | ok olderTime =>
    simp only [hmode, hop, Bool.false_eq_true, if_false, main_uri_eq, triples,
      forEach_flatMap, forEach_map]

/-- In repository-list mode, `main` is one `listAllRepositories` per host. -/
theorem main_eq_listHosts (env : Env) (flags : Flags) (hmode : flags.listRepos = true) :
    main env flags = listHosts env flags := by
  funext w
  unfold main listHosts
  cases generateTime flags.beforeTime with
  | error e => rfl
  | ok olderTime => simp only [hmode, if_true]

/-- Without a mode flag, `main` does nothing after resolving the cutoff. -/
theorem main_no_mode (env : Env) (flags : Flags) (hmode : flags.listRepos = false)
    (hshow : flags.showContent = false) (hdel : flags.delete = false) (w : World) :
    (main env flags w).world = w := by
  unfold main
  cases generateTime flags.beforeTime with
  | error e => rfl
  | ok olderTime =>
    simp only [selectOperation, hmode, hshow, hdel, Bool.false_eq_true, if_false]
    rw [forEach_pure]
    rfl

theorem listingCalls_append (w added : World) :
    listingCalls (w ++ added) = listingCalls w ++ listingCalls added := by
  unfold listingCalls
  rw [List.filterMap_append]

/-- Events that are not GET requests add no listing call. -/
theorem listingCalls_of_no_get (added : World) (h : ∀ e ∈ added, ∀ u, e ≠ .get u) :
    listingCalls added = [] := by
  induction added with
  | nil => rfl
  | cons e rest ih =>
    have hrest := ih (fun x hx => h x (List.mem_cons_of_mem _ hx))
    have he := h e (List.mem_cons_self _ _)
    unfold listingCalls at hrest ⊢
    cases e with
    | get u => exact absurd rfl (he u)
    | debug msg => simpa [List.filterMap_cons] using hrest
    | info msg => simpa [List.filterMap_cons] using hrest
    | stdout text => simpa [List.filterMap_cons] using hrest
    | delete u => simpa [List.filterMap_cons] using hrest

/-- A program that appends no GET request leaves the listing calls as they are. -/
theorem listingCalls_of_addsOnly {α : Type} (m : Prog α)
    (h : AddsOnly (fun e => ∀ u, e ≠ .get u) m) (w : World) :
    listingCalls (m w).world = listingCalls w := by
  obtain ⟨added, hw, hno⟩ := h w
  rw [hw, listingCalls_append, listingCalls_of_no_get added hno, List.append_nil]

/-- Every operation `main` can select appends no GET request. -/
theorem selectOperation_no_get (env : Env) (flags : Flags) (op : Action)
    (hop : selectOperation env flags = some op) (uri modified : String) :
    AddsOnly (fun e => ∀ u, e ≠ .get u) (op uri modified) := by
  unfold selectOperation at hop
  split at hop
  · cases hop
    exact AddsOnly.showItem _ (fun _ _ h => by cases h) uri modified
  · split at hop
    · cases hop
      intro w
      cases hdry : flags.dryRun with
      | true =>
        exact AddsOnly.deleteFactory_dry_run _ env (fun _ _ h => by cases h)
          (fun _ _ h => by cases h) uri modified w
      | false =>
        rw [deleteFactory_real_apply]
        cases env.httpDelete (w ++ [.info ("Deleting: " ++ uri)]) uri with
        | error err =>
          refine ⟨[.info ("Deleting: " ++ uri), .delete uri], rfl, fun e he => ?_⟩
          simp only [List.mem_cons, List.mem_singleton, List.not_mem_nil, or_false] at he
          rcases he with rfl | rfl <;> exact fun _ h => by cases h
        | ok status =>
          refine ⟨[.info ("Deleting: " ++ uri), .delete uri,
            .debug ("Result (status): " ++ status)], rfl, fun e he => ?_⟩
          simp only [List.mem_cons, List.mem_singleton, List.not_mem_nil, or_false] at he
          rcases he with rfl | rfl | rfl <;> exact fun _ h => by cases h
    · cases hop

/-- A call of `find` issues exactly one listing call, to its URI, whatever its
outcome, when the action issues none. -/
theorem find_listingCalls (env : Env) (uri pattern : String) (olderThan : Time)
    (fn : Action) (hfn : ∀ u m, AddsOnly (fun e => ∀ u, e ≠ .get u) (fn u m)) (w : World) :
    listingCalls (find env uri pattern olderThan fn w).world = listingCalls w ++ [uri] := by
  unfold find
  simp only [bind_eq]
  rw [Prog.bind_apply, makeRequest_apply]
  cases env.httpGet (w ++ [.debug ("URI:" ++ uri)]) uri with
  | error err => simp [Result.world, listingCalls]
  | ok r =>
    obtain ⟨status, body⟩ := r
    simp only
    rw [listingCalls_of_addsOnly _
      (AddsOnly.bind _ _ _ (AddsOnly.unmarshal _ _ body)
        (fun q => AddsOnly.findItems _ env pattern olderThan fn q hfn))]
    simp [listingCalls]

/-- A call of `listAllRepositories` issues exactly one listing call, to the
repository list of the host. -/
theorem listAllRepositories_listingCalls (env : Env) (host : String) (w : World) :
    listingCalls (listAllRepositories env host w).world
      = listingCalls w ++ [host ++ "service/local/all_repositories"] := by
  unfold listAllRepositories
  simp only [bind_eq]
  rw [Prog.bind_apply, makeRequest_apply]
  cases env.httpGet (w ++ [.debug ("URI:" ++ (host ++ "service/local/all_repositories"))])
      (host ++ "service/local/all_repositories") with
  | error err => simp [Result.world, listingCalls]
  | ok r =>
    obtain ⟨status, body⟩ := r
    simp only
    rw [listingCalls_of_addsOnly _
      (AddsOnly.bind _ _ _ (AddsOnly.unmarshal _ _ body)
        (fun q => AddsOnly.bind _ _ _ (AddsOnly.emit _ _ (fun _ h => by cases h))
          (fun _ => AddsOnly.forEach _ q _
            (fun r => AddsOnly.emit _ _ (fun _ h => by cases h)))))]
    simp [listingCalls]

/-- A loop whose body issues exactly one listing call per element issues the
calls of a front part of the list, in order, and of the whole list when it
returns normally. -/
theorem forEach_listingCalls {α : Type} (xs : List α) (body : α → Prog Unit)
    (u : α → String)
    (h : ∀ x w, listingCalls (body x w).world = listingCalls w ++ [u x]) (w : World) :
    ∃ k, k ≤ xs.length ∧
      listingCalls (forEach xs body w).world = listingCalls w ++ (xs.map u).take k ∧
      ((forEach xs body w).isOk = true → k = xs.length) := by
  induction xs generalizing w with
  | nil => exact ⟨0, le_refl _, by simp [Result.world], fun _ => rfl⟩
  | cons x rest ih =>
    have hx := h x w
    rw [forEach_cons, Prog.bind_apply]
    cases hr : body x w with
    | panic e w1 =>
      rw [hr] at hx
      refine ⟨1, by simp, ?_, fun hok => by cases hok⟩
      simpa [Result.world] using hx
    | ok a w1 =>
      rw [hr] at hx
      simp only [Result.world] at hx
      obtain ⟨k, hk, hcalls, hok⟩ := ih w1
      refine ⟨k + 1, by simpa using hk, ?_, fun hok1 => by simpa using hok hok1⟩
      simp only
      rw [hcalls, hx]
      simp

/-- The URI `listAllRepositories` requests for the host `main` passes. -/
theorem main_repositories_uri_eq (host : String) :
    "http://" ++ host ++ "/nexus/" ++ "service/local/all_repositories"
      = repositoriesURI host := by
  unfold repositoriesURI
  rw [String.append_assoc ("http://" ++ host)]
  rfl

/-! ## Theorems -/

/-- C1: in the loop of `find`, for every listing, every pattern that compiles and
every cutoff, if every pattern-matching item has a timestamp that parses with the
wire layout, then for every action and starting world the loop is exactly the
application of the action, in listing order, to the items for which the pattern
matches the resource URI and the parsed last-modified instant is strictly before
the cutoff; an item whose last-modified instant equals the cutoff is not among
them, and no item failing either predicate is.  The same holds for `find` as a
whole once its listing request has returned the listing. -/
theorem find_applies_action_iff_selected (env : Env) (pattern : String)
    (re : String → Bool) (olderThan : Time) (items : List ContentItem)
    (hre : env.regexpCompile pattern = some re)
    (hparse : ∀ item ∈ items, re item.resourceURI = true →
      (timeParse nexusTimeLayout item.lastModified).isSome = true) :
    (∀ (fn : Action) (w : World),
        findItems env pattern olderThan fn items w
          = forEach (items.filter (selected re olderThan)) (applyTo fn) w) ∧
    (∀ item, item ∈ items.filter (selected re olderThan) ↔
        item ∈ items ∧ re item.resourceURI = true ∧
          ∃ t, timeParse nexusTimeLayout item.lastModified = some t ∧
            t.Before olderThan = true) ∧
    (∀ item, timeParse nexusTimeLayout item.lastModified = some olderThan →
        item ∉ items.filter (selected re olderThan)) ∧
    (∀ (fn : Action) (uri : String) (w : World) (status body : String),
        env.httpGet (w ++ [.debug ("URI:" ++ uri)]) uri = .ok (status, body) →
        env.xmlContent body = some items →
        find env uri pattern olderThan fn w
          = forEach (items.filter (selected re olderThan)) (applyTo fn)
              (w ++ [.debug ("URI:" ++ uri), .get uri, .debug status])) := by
  refine ⟨fun fn w => ?_, fun item => ?_, fun item hcut hmem => ?_,
    fun fn uri w status body hget hdec => ?_⟩
  · rw [findItems_eq_forEach_selected env pattern re olderThan fn items hre hparse]
  · rw [List.mem_filter, selected_iff]
  · rw [List.mem_filter, selected_iff] at hmem
    obtain ⟨_, _, t, ht, hb⟩ := hmem
    rw [hcut] at ht
    cases ht
    rw [Time.Before_irrefl] at hb
    cases hb
  · rw [find_eq_findItems env uri pattern olderThan fn w status body items hget hdec,
      findItems_eq_forEach_selected env pattern re olderThan fn items hre hparse]

/-- C1 witness: listing `A, B, C, docs` with pattern `jar$` and the cutoff
2023-03-01 00:00:00, which is the instant of `C`: only `A` is acted upon. -/
theorem find_applies_action_iff_selected_witness :
    findItems (sampleEnv []) "jar$" (Date 2023 3 1 0 0 0 0) showItem
        [itemA, itemB, itemC, itemDir] []
      = .ok () [.stdout "\t2023-01-01 00:00:00.0 UTC\thttp://h1/a.jar\n"] ∧
    itemC ∉ [itemA, itemB, itemC, itemDir].filter
      (selected (fun text => "jar".data.isSuffixOf text.data) (Date 2023 3 1 0 0 0 0)) := by
  have h := find_applies_action_iff_selected (sampleEnv []) "jar$"
    (fun text => "jar".data.isSuffixOf text.data) (Date 2023 3 1 0 0 0 0)
    [itemA, itemB, itemC, itemDir] rfl (by decide)
  refine ⟨?_, h.2.2.1 itemC (by decide)⟩
  rw [h.1 showItem []]
  decide

/-- C2: dry-run Delete never issues a network call.  (1) For every URI, modified
text and world, the action `deleteFactory(true)` returns normally and appends
exactly the intent `Deleting: <uri>` and the dry-run note, hence no request.
(2) The loop of `find` run with that action over any listing appends no HTTP
request at all, whatever the pattern, the cutoff and the outcome.  (3) When the
pattern compiles and the matching timestamps parse, that loop returns normally
and appends exactly one intent (with its note) per selected record, in order.
(4) A whole run of `main` with `-dry-run` set appends no DELETE request. -/
theorem dry_run_delete_issues_no_request (env : Env) :
    (∀ (uri modified : String) (w : World),
      deleteFactory env true uri modified w
        = .ok () (w ++ [.info ("Deleting: " ++ uri), .debug "Nothign done dry-run"])) ∧
    (∀ (pattern : String) (olderThan : Time) (items : List ContentItem) (w : World),
      ∃ added, (findItems env pattern olderThan (deleteFactory env true) items w).world
          = w ++ added ∧ ∀ e ∈ added, e.isRequest = false) ∧
    (∀ (pattern : String) (re : String → Bool) (olderThan : Time)
        (items : List ContentItem) (w : World),
      env.regexpCompile pattern = some re →
      (∀ item ∈ items, re item.resourceURI = true →
        (timeParse nexusTimeLayout item.lastModified).isSome = true) →
      findItems env pattern olderThan (deleteFactory env true) items w
        = .ok () (w ++ (items.filter (selected re olderThan)).flatMap dryRunLines)) ∧
    (∀ (flags : Flags) (w : World), flags.dryRun = true →
      ∃ added, (main env flags w).world = w ++ added ∧ ∀ e ∈ added, e.isDelete = false) := by
  refine ⟨deleteFactory_dry_run_apply env, fun pattern olderThan items w => ?_,
    fun pattern re olderThan items w hre hparse => ?_, fun flags w hdry => ?_⟩
  · exact AddsOnly.findItems (fun e => e.isRequest = false) env pattern olderThan _ items
      (AddsOnly.deleteFactory_dry_run _ env (fun _ => rfl) (fun _ => rfl)) w
  · rw [findItems_eq_forEach_selected env pattern re olderThan _ items hre hparse]
    exact forEach_appends _ _ dryRunLines
      (fun item w1 => deleteFactory_dry_run_apply env _ _ w1) w
  · exact AddsOnly.main_dry_run env flags hdry w

/-- C2 witness: a dry-run Delete over the listing `A, B, C` with pattern `.*` and
cutoff 2023-03-01 00:00:00 on a server that refuses every request: the only
selected record is `A`, its intent is logged, and no request is issued.  A whole
run with `-delete` and `-dry-run` issues no DELETE, while the same run without
`-dry-run` does. -/
theorem dry_run_delete_issues_no_request_witness :
    findItems downEnv ".*" (Date 2023 3 1 0 0 0 0) (deleteFactory downEnv true)
        [itemA, itemB, itemC] []
      = .ok () ([] ++ ([itemA, itemB, itemC].filter
          (selected (fun _ => true) (Date 2023 3 1 0 0 0 0))).flatMap dryRunLines) ∧
    findItems downEnv ".*" (Date 2023 3 1 0 0 0 0) (deleteFactory downEnv true)
        [itemA, itemB, itemC] []
      = .ok () [.info "Deleting: http://h1/a.jar", .debug "Nothign done dry-run"] ∧
    (∃ added, (main (sampleEnv [itemA]) (sampleFlags false false true true) []).world
        = [] ++ added ∧ ∀ e ∈ added, e.isDelete = false) ∧
    (main (sampleEnv [itemA]) (sampleFlags false false true true) []).world.any
        Event.isDelete = false ∧
    (main (sampleEnv [itemA]) (sampleFlags false false true false) []).world.any
        Event.isDelete = true :=
  ⟨(dry_run_delete_issues_no_request downEnv).2.2.1 ".*" (fun _ => true)
     (Date 2023 3 1 0 0 0 0) [itemA, itemB, itemC] [] rfl (by decide),
   by decide,
   (dry_run_delete_issues_no_request (sampleEnv [itemA])).2.2.2
     (sampleFlags false false true true) [] rfl,
   by decide, by decide⟩

/-- C3: Cartesian fan-out of the scan loop of `main`.  When `-repo-list` is not
set and an action is selected (`-list` or `-delete`), `main` is, after resolving
the cutoff, exactly one call of `find` per (host, repository, path) triple of the
three comma-separated lists, in host-major order, each with the URI
`http://{host}/nexus/service/local/repositories/{repo}/content/{path}` and the
selected action; the number of triples is `|H| * |R| * |P|`; the listing calls
of the run are the URIs of the first `k` triples in that order, and of all the
triples when the run returns normally (a call that panics ends the run). -/
theorem main_fans_out_cartesian (env : Env) (flags : Flags)
    (hmode : flags.listRepos = false)
    (haction : flags.showContent = true ∨ flags.delete = true) :
    ∃ op, selectOperation env flags = some op ∧
      (∀ w, main env flags w = scanTriples env flags op w) ∧
      (triples (stringsSplit flags.argHost) (stringsSplit flags.argRepo)
          (stringsSplit flags.argPath)).length
        = (stringsSplit flags.argHost).length * (stringsSplit flags.argRepo).length
            * (stringsSplit flags.argPath).length ∧
      (∀ w, ∃ k,
        k ≤ (stringsSplit flags.argHost).length * (stringsSplit flags.argRepo).length
            * (stringsSplit flags.argPath).length ∧
        listingCalls (main env flags w).world
          = listingCalls w ++
              ((triples (stringsSplit flags.argHost) (stringsSplit flags.argRepo)
                  (stringsSplit flags.argPath)).map
                (fun t => listingURI t.1 t.2.1 t.2.2)).take k ∧
        ((main env flags w).isOk = true →
          k = (stringsSplit flags.argHost).length * (stringsSplit flags.argRepo).length
            * (stringsSplit flags.argPath).length)) := by
  have hsome : ∃ op, selectOperation env flags = some op := by
    unfold selectOperation
    rcases haction with h | h
    · exact ⟨showItem, by simp [h]⟩
    · cases hs : flags.showContent with
      | true => exact ⟨showItem, by simp⟩
      | false => exact ⟨deleteFactory env flags.dryRun, by simp [h]⟩
  obtain ⟨op, hop⟩ := hsome
  have hmain := main_eq_scanTriples env flags op hmode hop
  refine ⟨op, hop, fun w => by rw [hmain], triples_length _ _ _, fun w => ?_⟩
  rw [hmain]
  unfold scanTriples
  cases generateTime flags.beforeTime with
  | error e => exact ⟨0, Nat.zero_le _, by simp [Result.world], fun h => by cases h⟩
  | ok olderTime =>
    simp only
    have h := forEach_listingCalls
      (triples (stringsSplit flags.argHost) (stringsSplit flags.argRepo)
        (stringsSplit flags.argPath))
      (fun t => find env (listingURI t.1 t.2.1 t.2.2) flags.regexpPattern olderTime op)
      (fun t => listingURI t.1 t.2.1 t.2.2)
      (fun t w1 => find_listingCalls env _ _ olderTime op
        (selectOperation_no_get env flags op hop) w1) w
    rw [triples_length] at h
    exact h

/-- C3 witness: hosts `h1,h2`, repositories `r1,r2`, path `p1` with `-list`: the
run returns normally and makes exactly four listing calls, one per triple, in
host-major order. -/
theorem main_fans_out_cartesian_witness :
    (∃ op, selectOperation (sampleEnv [itemA]) (sampleFlags false true false true) = some op ∧
      ∀ w, main (sampleEnv [itemA]) (sampleFlags false true false true) w
        = scanTriples (sampleEnv [itemA]) (sampleFlags false true false true) op w) ∧
    (triples (stringsSplit "h1,h2") (stringsSplit "r1,r2") (stringsSplit "p1")).length = 4 ∧
    (main (sampleEnv [itemA]) (sampleFlags false true false true) []).isOk = true ∧
    listingCalls (main (sampleEnv [itemA]) (sampleFlags false true false true) []).world
      = ["http://h1/nexus/service/local/repositories/r1/content/p1",
         "http://h1/nexus/service/local/repositories/r2/content/p1",
         "http://h2/nexus/service/local/repositories/r1/content/p1",
         "http://h2/nexus/service/local/repositories/r2/content/p1"] := by
  obtain ⟨op, hop, hmain, _, _⟩ := main_fans_out_cartesian (sampleEnv [itemA])
    (sampleFlags false true false true) rfl (Or.inl rfl)
  exact ⟨⟨op, hop, hmain⟩, by decide, by decide, by decide⟩

/-- C4: the loop of `find` preserves the order of the listing: for every
listing, pattern that compiles and cutoff, with all pattern-matching timestamps
parseable, there is a sublist `sel` of the listing (same relative order, nothing
repeated) such that for every action `fn` the loop is the application of `fn`
to `(resourceURI, lastModified)` of the items of `sel` in that order; for the
Report action the output is the lines of `sel` in listing order. -/
theorem find_preserves_listing_order (env : Env) (pattern : String)
    (re : String → Bool) (olderThan : Time) (items : List ContentItem)
    (hre : env.regexpCompile pattern = some re)
    (hparse : ∀ item ∈ items, re item.resourceURI = true →
      (timeParse nexusTimeLayout item.lastModified).isSome = true) :
    ∃ sel : List ContentItem, sel.Sublist items ∧
      (∀ (fn : Action) (w : World),
        findItems env pattern olderThan fn items w
          = forEach sel (fun item => fn item.resourceURI item.lastModified) w) ∧
      (∀ w : World,
        findItems env pattern olderThan showItem items w
          = .ok () (w ++ sel.map (fun item =>
              Event.stdout ("\t" ++ item.lastModified ++ "\t" ++ item.resourceURI ++ "\n")))) := by
  refine ⟨items.filter (selected re olderThan), List.filter_sublist _, fun fn w => ?_,
    fun w => ?_⟩
  · rw [findItems_eq_forEach_selected env pattern re olderThan fn items hre hparse]
    rfl
  · rw [findItems_eq_forEach_selected env pattern re olderThan showItem items hre hparse]
    exact forEach_emit _ _ w

/-- C4 witness: records `A` (2023-01-01), `B` (2023-06-01), `C` (2023-03-01),
cutoff 2023-12-31 and pattern `.*`: the Report output is `A, B, C`. -/
theorem find_preserves_listing_order_witness :
    generateTime "2023-12-31" = .ok (Date 2023 12 31 0 0 0 0) ∧
    (∃ sel : List ContentItem, sel.Sublist [itemA, itemB, itemC] ∧
      (∀ (fn : Action) (w : World),
        findItems (sampleEnv []) ".*" (Date 2023 12 31 0 0 0 0) fn [itemA, itemB, itemC] w
          = forEach sel (fun item => fn item.resourceURI item.lastModified) w) ∧
      (∀ w : World,
        findItems (sampleEnv []) ".*" (Date 2023 12 31 0 0 0 0) showItem
            [itemA, itemB, itemC] w
          = .ok () (w ++ sel.map (fun item =>
              Event.stdout ("\t" ++ item.lastModified ++ "\t" ++ item.resourceURI ++ "\n"))))) ∧
    findItems (sampleEnv []) ".*" (Date 2023 12 31 0 0 0 0) showItem [itemA, itemB, itemC] []
      = .ok () [.stdout "\t2023-01-01 00:00:00.0 UTC\thttp://h1/a.jar\n",
                .stdout "\t2023-06-01 00:00:00.0 UTC\thttp://h1/b.jar\n",
                .stdout "\t2023-03-01 00:00:00.0 UTC\thttp://h1/c.jar\n"] :=
  ⟨by rfl,
   find_preserves_listing_order (sampleEnv []) ".*" (fun _ => true)
     (Date 2023 12 31 0 0 0 0) [itemA, itemB, itemC] rfl (by decide),
   by decide⟩

/-- C5: mode selection in `main`.  (1) If `-repo-list` is set, then whatever
`-list` and `-delete` are, `main` is exactly one `listAllRepositories` per host
(after resolving the cutoff), and every listing call of the run goes to the
repository list of a host: `find` is never called.  (2) Otherwise, if `-list` is
set the one selected action is Report, whatever `-delete` is.  (3) Otherwise, if
`-delete` is set the one selected action is Delete with the `-dry-run` flag.
In (2) and (3) `main` is the scan with that action.  (4) When no mode flag is
set, no action is selected and the run changes nothing: no listing call is
made. -/
theorem main_mode_selection (env : Env) (flags : Flags) :
    (flags.listRepos = true →
      (∀ w, main env flags w = listHosts env flags w) ∧
      (∀ w, ∃ k, listingCalls (main env flags w).world
        = listingCalls w ++ ((stringsSplit flags.argHost).map repositoriesURI).take k)) ∧
    (flags.listRepos = false → flags.showContent = true →
      selectOperation env flags = some showItem ∧
      ∀ w, main env flags w = scanTriples env flags showItem w) ∧
    (flags.listRepos = false → flags.showContent = false → flags.delete = true →
      selectOperation env flags = some (deleteFactory env flags.dryRun) ∧
      ∀ w, main env flags w = scanTriples env flags (deleteFactory env flags.dryRun) w) ∧
    (flags.listRepos = false → flags.showContent = false → flags.delete = false →
      selectOperation env flags = none ∧ ∀ w, (main env flags w).world = w) := by
  refine ⟨fun hmode => ⟨fun w => by rw [main_eq_listHosts env flags hmode], fun w => ?_⟩,
    fun hmode hshow => ?_, fun hmode hshow hdel => ?_, fun hmode hshow hdel => ?_⟩
  · rw [main_eq_listHosts env flags hmode]
    unfold listHosts
    cases generateTime flags.beforeTime with
    | error e => exact ⟨0, by simp [Result.world]⟩
    | ok olderTime =>
      simp only
      obtain ⟨k, _, hk, _⟩ := forEach_listingCalls (stringsSplit flags.argHost)
        (fun hostName => listAllRepositories env ("http://" ++ hostName ++ "/nexus/"))
        repositoriesURI
        (fun hostName w1 => by
          rw [listAllRepositories_listingCalls, main_repositories_uri_eq]) w
      exact ⟨k, hk⟩
  · have hop : selectOperation env flags = some showItem := by
      simp [selectOperation, hshow]
    exact ⟨hop, fun w => by rw [main_eq_scanTriples env flags showItem hmode hop]⟩
  · have hop : selectOperation env flags = some (deleteFactory env flags.dryRun) := by
      simp [selectOperation, hshow, hdel]
    exact ⟨hop, fun w => by rw [main_eq_scanTriples env flags _ hmode hop]⟩
  · exact ⟨by simp [selectOperation, hshow, hdel],
      fun w => main_no_mode env flags hmode hshow hdel w⟩

/-- C5 witness: `-repo-list`, `-list` and `-delete` all set (and `-dry-run`
off) on hosts `h1,h2`: only the two repository lists are requested, nothing is
listed or deleted; and with no mode flag nothing happens at all. -/
theorem main_mode_selection_witness :
    (∀ w, main (sampleEnv [itemA]) (sampleFlags true true true false) w
      = listHosts (sampleEnv [itemA]) (sampleFlags true true true false) w) ∧
    main (sampleEnv [itemA]) (sampleFlags true true true false) []
      = .ok () [.debug "URI:http://h1/nexus/service/local/all_repositories",
                .get "http://h1/nexus/service/local/all_repositories",
                .debug "200 OK",
                .stdout "--== Found 0 repositories ==-- \n",
                .debug "URI:http://h2/nexus/service/local/all_repositories",
                .get "http://h2/nexus/service/local/all_repositories",
                .debug "200 OK",
                .stdout "--== Found 0 repositories ==-- \n"] ∧
    (main (sampleEnv [itemA]) (sampleFlags false false false false) []).world = [] :=
  ⟨((main_mode_selection (sampleEnv [itemA]) (sampleFlags true true true false)).1 rfl).1,
   by decide,
   ((main_mode_selection (sampleEnv [itemA]) (sampleFlags false false false false)).2.2.2
     rfl rfl rfl).2 []⟩

/-- C6: `generateTime` tries the full date-time layout first and the date-only
layout second, and fails if and only if the text matches neither: a text that
parses with the full layout yields that parse; otherwise a text that parses
with the date-only layout yields that parse; otherwise `generateTime` panics
with the invalid time text. -/
theorem generateTime_fails_iff_no_layout (timeString : String) :
    ((∃ e, generateTime timeString = .error e) ↔
      timeParse timeLayout timeString = none ∧
        timeParse timeLayoutShort timeString = none) ∧
    (∀ t, timeParse timeLayout timeString = some t → generateTime timeString = .ok t) ∧
    (∀ t, timeParse timeLayout timeString = none →
      timeParse timeLayoutShort timeString = some t → generateTime timeString = .ok t) ∧
    (timeParse timeLayout timeString = none →
      timeParse timeLayoutShort timeString = none →
        generateTime timeString = .error (.invalidTime timeString)) := by
  unfold generateTime
  cases h1 : timeParse timeLayout timeString with
  | some t1 => simp
  | none =>
    cases h2 : timeParse timeLayoutShort timeString with
    | some t2 => simp
    | none => simp

/-- C6 witness: a full date-time, a date only, and a text in neither layout. -/
theorem generateTime_fails_iff_no_layout_witness :
    generateTime "2024-01-05 10:30:00" = .ok (Date 2024 1 5 10 30 0 0) ∧
    generateTime "2024-01-05" = .ok (Date 2024 1 5 0 0 0 0) ∧
    generateTime "05/01/2024" = .error (.invalidTime "05/01/2024") :=
  ⟨(generateTime_fails_iff_no_layout "2024-01-05 10:30:00").2.1 _ (by decide),
   (generateTime_fails_iff_no_layout "2024-01-05").2.2.1 _ (by decide) (by decide),
   (generateTime_fails_iff_no_layout "05/01/2024").2.2.2 (by decide) (by decide)⟩

/-- C7: `generateTime` resolves date-only input to midnight of that date: for
every valid calendar date written `YYYY-MM-DD`, `generateTime` succeeds on the
date and yields the instant `Date(year, month, day, 0, 0, 0, 0, UTC)` for the
year, month and day written in the text; it yields that same instant on the
date followed by ` 00:00:00`; so both calls agree, and the instant is a whole
number of days from the epoch with no nanoseconds. -/
theorem generateTime_date_only_is_midnight (date : String)
    (hdate : isCalendarDate date = true) :
    generateTime date
      = .ok (Date (dateYear date) (dateMonth date) (dateDay date) 0 0 0 0) ∧
    generateTime (date ++ " 00:00:00")
      = .ok (Date (dateYear date) (dateMonth date) (dateDay date) 0 0 0 0) ∧
    generateTime date = generateTime (date ++ " 00:00:00") ∧
    (∃ year month day : Int, generateTime date = .ok (Date year month day 0 0 0 0)) ∧
    (Date (dateYear date) (dateMonth date) (dateDay date) 0 0 0 0).sec % 86400 = 0 ∧
    (Date (dateYear date) (dateMonth date) (dateDay date) 0 0 0 0).nsec = 0 := by
  obtain ⟨data⟩ := date
  unfold isCalendarDate at hdate
  split at hdate
  · rename_i y0 y1 y2 y3 c4 m0 m1 c7 d0 d1 hdata
    simp only [Bool.and_eq_true, decide_eq_true_eq] at hdate
    obtain ⟨⟨⟨⟨⟨⟨⟨⟨⟨⟨⟨⟨⟨hy0, hy1⟩, hy2⟩, hy3⟩, hc4⟩, hm0⟩, hm1⟩, hc7⟩, hd0⟩, hd1⟩,
      hmlo⟩, hmhi⟩, hdlo⟩, hdhi⟩ := hdate
    simp only at hdata
    subst hdata hc4 hc7
    have hm : ¬ (digitVal m0 * 10 + digitVal m1 ≤ 0 ∨ 12 < digitVal m0 * 10 + digitVal m1) := by
      simp only [digitsVal] at hmlo hmhi
      omega
    have hd : ¬ (digitVal d0 * 10 + digitVal d1 < 1 ∨
        daysIn (digitVal m0 * 10 + digitVal m1)
          (((digitVal y0 * 10 + digitVal y1) * 10 + digitVal y2) * 10 + digitVal y3)
          < digitVal d0 * 10 + digitVal d1) := by
      simp only [digitsVal, zero_mul, zero_add] at hdlo hdhi
      omega
    have hshort : parseLayout timeLayoutShort {} [y0, y1, y2, y3, '-', m0, m1, '-', d0, d1]
        = some { year := ((digitVal y0 * 10 + digitVal y1) * 10 + digitVal y2) * 10 + digitVal y3,
                 month := digitVal m0 * 10 + digitVal m1,
                 day := digitVal d0 * 10 + digitVal d1 } := by
      simp [parseLayout, timeLayoutShort, skip, skipAux, parseStd, getnum, digitsVal,
        hy0, hy1, hy2, hy3, hm0, hm1, hd0, hd1, hm, Layout.nextStd]
    have hfull : parseLayout timeLayout {} [y0, y1, y2, y3, '-', m0, m1, '-', d0, d1]
        = none := by
      simp [parseLayout, timeLayout, skip, skipAux, parseStd, getnum, digitsVal,
        hy0, hy1, hy2, hy3, hm0, hm1, hd0, hd1, hm, Layout.nextStd]
    have hmid : parseLayout timeLayout {}
        ([y0, y1, y2, y3, '-', m0, m1, '-', d0, d1] ++ " 00:00:00".data)
        = some { year := ((digitVal y0 * 10 + digitVal y1) * 10 + digitVal y2) * 10 + digitVal y3,
                 month := digitVal m0 * 10 + digitVal m1,
                 day := digitVal d0 * 10 + digitVal d1 } := by
      have hz : isDigitChar '0' = true := by decide
      have hv : digitVal '0' = 0 := by decide
      simp [parseLayout, timeLayout, skip, skipAux, parseStd, getnum, digitsVal, cutspace,
        hy0, hy1, hy2, hy3, hm0, hm1, hd0, hd1, hm, Layout.nextStd, hz, hv, fracSecond]
    have hmonth : ¬ (digitVal m0 * 10 + digitVal m1 < 0) := by omega
    have hday : ¬ (digitVal d0 * 10 + digitVal d1 < 0) := by omega
    have h1 : generateTime ⟨[y0, y1, y2, y3, '-', m0, m1, '-', d0, d1]⟩
        = .ok (Date (((digitVal y0 * 10 + digitVal y1) * 10 + digitVal y2) * 10 + digitVal y3)
            (digitVal m0 * 10 + digitVal m1) (digitVal d0 * 10 + digitVal d1) 0 0 0 0) := by
      simp only [generateTime, timeParse, hfull, hshort, hmonth, hday, hd, if_false]
    have h2 : generateTime
        ((⟨[y0, y1, y2, y3, '-', m0, m1, '-', d0, d1]⟩ : String) ++ " 00:00:00")
        = .ok (Date (((digitVal y0 * 10 + digitVal y1) * 10 + digitVal y2) * 10 + digitVal y3)
            (digitVal m0 * 10 + digitVal m1) (digitVal d0 * 10 + digitVal d1) 0 0 0 0) := by
      simp only [generateTime, timeParse, String.data_append, hmid, hmonth, hday, hd, if_false]
    have hyear : dateYear ⟨[y0, y1, y2, y3, '-', m0, m1, '-', d0, d1]⟩
        = ((digitVal y0 * 10 + digitVal y1) * 10 + digitVal y2) * 10 + digitVal y3 := by
      simp [dateYear, digitsVal]
    have hmonthv : dateMonth ⟨[y0, y1, y2, y3, '-', m0, m1, '-', d0, d1]⟩
        = digitVal m0 * 10 + digitVal m1 := by
      simp [dateMonth, digitsVal]
    have hdayv : dateDay ⟨[y0, y1, y2, y3, '-', m0, m1, '-', d0, d1]⟩
        = digitVal d0 * 10 + digitVal d1 := by
      simp [dateDay, digitsVal]
    rw [hyear, hmonthv, hdayv]
    refine ⟨h1, h2, h1.trans h2.symm, ⟨_, _, _, h1⟩, ?_, ?_⟩
    · simp only [Date]
      omega
    · simp [Date]
  · cases hdate

/-- C7 witness: `generateTime("2024-01-05")` and
`generateTime("2024-01-05 00:00:00")` are both the instant 1704412800 s after
the Unix epoch, midnight of 5 January 2024; the leap day 2024-02-29 resolves to
1709164800 s, midnight of that day. -/
theorem generateTime_date_only_is_midnight_witness :
    isCalendarDate "2024-01-05" = true ∧
    generateTime "2024-01-05" = .ok (Date 2024 1 5 0 0 0 0) ∧
    generateTime ("2024-01-05" ++ " 00:00:00") = .ok (Date 2024 1 5 0 0 0 0) ∧
    Date 2024 1 5 0 0 0 0 = { sec := 1704412800, nsec := 0 } ∧
    generateTime "2024-02-29" = .ok (Date 2024 2 29 0 0 0 0) ∧
    generateTime ("2024-02-29" ++ " 00:00:00") = .ok (Date 2024 2 29 0 0 0 0) ∧
    Date 2024 2 29 0 0 0 0 = { sec := 1709164800, nsec := 0 } :=
  ⟨by decide,
   (generateTime_date_only_is_midnight "2024-01-05" (by decide)).1,
   (generateTime_date_only_is_midnight "2024-01-05" (by decide)).2.1,
   by decide,
   (generateTime_date_only_is_midnight "2024-02-29" (by decide)).1,
   (generateTime_date_only_is_midnight "2024-02-29" (by decide)).2.1,
   by decide⟩

/-- C8: a malformed server timestamp on a pattern-matching record aborts the loop
of `find` without undoing earlier work: if some item matches the pattern and its
timestamp does not parse with the wire layout, then the listing splits at the
first such item `bad` into `pre ++ bad :: post`, and for every action and
starting world the loop is the application of the action to the selected items
of `pre`, followed by the panic on the timestamp of `bad`: no action is applied
to `bad` or to any item of `post`, the world keeps the effects of the actions on
`pre`, and the loop never returns normally. -/
theorem find_aborts_on_malformed_timestamp (env : Env) (pattern : String)
    (re : String → Bool) (olderThan : Time) (items : List ContentItem)
    (hre : env.regexpCompile pattern = some re)
    (hbad : ∃ item ∈ items, re item.resourceURI = true ∧
      timeParse nexusTimeLayout item.lastModified = none) :
    ∃ pre bad post, items = pre ++ bad :: post ∧
      re bad.resourceURI = true ∧ timeParse nexusTimeLayout bad.lastModified = none ∧
      (∀ item ∈ pre, re item.resourceURI = true →
        (timeParse nexusTimeLayout item.lastModified).isSome = true) ∧
      ∀ (fn : Action) (w : World),
        findItems env pattern olderThan fn items w
          = Prog.bind (forEach (pre.filter (selected re olderThan)) (applyTo fn))
              (fun _ => throwPanic (.invalidTime bad.lastModified)) w ∧
        (findItems env pattern olderThan fn items w).isOk = false ∧
        (∀ w1, forEach (pre.filter (selected re olderThan)) (applyTo fn) w = .ok () w1 →
          findItems env pattern olderThan fn items w
            = .panic (.invalidTime bad.lastModified) w1) := by
  obtain ⟨pre, bad, post, hsplit, ⟨hm, hp⟩, hpre⟩ :=
    exists_first_split (fun item => re item.resourceURI = true ∧
      timeParse nexusTimeLayout item.lastModified = none) items hbad
  have hpre1 : ∀ item ∈ pre, re item.resourceURI = true →
      (timeParse nexusTimeLayout item.lastModified).isSome = true := by
    intro item hitem hmatch
    have := hpre item hitem
    cases hparse : timeParse nexusTimeLayout item.lastModified with
    | none => exact absurd ⟨hmatch, hparse⟩ this
    | some t => rfl
  have key : ∀ fn : Action, findItems env pattern olderThan fn items
      = Prog.bind (forEach (pre.filter (selected re olderThan)) (applyTo fn))
          (fun _ => throwPanic (.invalidTime bad.lastModified)) := by
    intro fn
    have h1 := findItems_eq_forEach_selected env pattern re olderThan fn pre hre hpre1
    unfold findItems at h1 ⊢
    rw [hsplit, forEach_append, h1, forEach_cons,
      findItem_malformed env pattern re olderThan fn bad hre hm hp]
    rfl
  refine ⟨pre, bad, post, hsplit, hm, hp, hpre1, fun fn w => ⟨?_, ?_, fun w1 h1 => ?_⟩⟩
  · rw [key fn]
  · rw [key fn]
    exact bind_throwPanic_not_ok _ _ w
  · rw [key fn, Prog.bind_apply, h1]
    rfl

/-- C8 witness: listing `A, x.jar, C` where `x.jar` matches `jar$` and has a
timestamp without the zone literal: `A` is reported, then the run panics, and
`C` is never reported. -/
theorem find_aborts_on_malformed_timestamp_witness :
    (∃ pre bad post, [itemA, itemBad, itemC] = pre ++ bad :: post ∧
      (fun text : String => "jar".data.isSuffixOf text.data) bad.resourceURI = true ∧
      timeParse nexusTimeLayout bad.lastModified = none ∧
      (∀ item ∈ pre, (fun text : String => "jar".data.isSuffixOf text.data)
          item.resourceURI = true →
        (timeParse nexusTimeLayout item.lastModified).isSome = true) ∧
      ∀ (fn : Action) (w : World),
        findItems (sampleEnv []) "jar$" (Date 2023 12 31 0 0 0 0) fn
            [itemA, itemBad, itemC] w
          = Prog.bind (forEach (pre.filter (selected
                (fun text => "jar".data.isSuffixOf text.data) (Date 2023 12 31 0 0 0 0)))
              (applyTo fn))
              (fun _ => throwPanic (.invalidTime bad.lastModified)) w ∧
        (findItems (sampleEnv []) "jar$" (Date 2023 12 31 0 0 0 0) fn
            [itemA, itemBad, itemC] w).isOk = false ∧
        (∀ w1, forEach (pre.filter (selected
              (fun text => "jar".data.isSuffixOf text.data) (Date 2023 12 31 0 0 0 0)))
            (applyTo fn) w = .ok () w1 →
          findItems (sampleEnv []) "jar$" (Date 2023 12 31 0 0 0 0) fn
              [itemA, itemBad, itemC] w
            = .panic (.invalidTime bad.lastModified) w1)) ∧
    findItems (sampleEnv []) "jar$" (Date 2023 12 31 0 0 0 0) showItem
        [itemA, itemBad, itemC] []
      = .panic (.invalidTime "2023-02-01 00:00:00.0")
          [.stdout "\t2023-01-01 00:00:00.0 UTC\thttp://h1/a.jar\n"] :=
  ⟨find_aborts_on_malformed_timestamp (sampleEnv []) "jar$"
     (fun text => "jar".data.isSuffixOf text.data) (Date 2023 12 31 0 0 0 0)
     [itemA, itemBad, itemC] rfl ⟨itemBad, by decide, by decide, by decide⟩,
   by decide⟩

/-- C9 counterexample: on the listing that holds only the directory entry
`docs` (not matched by `jar$`, timestamp `yesterday`), `find` as written skips
the entry and completes, while the variant that parses the timestamp first
panics: the two orders of evaluation do not have the same outcome. -/
theorem find_order_of_evaluation_counterexample :
    findItems (sampleEnv []) "jar$" (Date 2023 12 31 0 0 0 0) showItem [itemDir] []
      = .ok () [] ∧
    findItemsTimeFirst (sampleEnv []) "jar$" (Date 2023 12 31 0 0 0 0) showItem [itemDir] []
      = .panic (.invalidTime "yesterday") [] ∧
    ¬ (∀ (env : Env) (pattern : String) (olderThan : Time) (fn : Action)
        (items : List ContentItem) (w : World),
        findItems env pattern olderThan fn items w
          = findItemsTimeFirst env pattern olderThan fn items w) := by
  refine ⟨by decide, by decide, fun h => ?_⟩
  have h1 := h (sampleEnv []) "jar$" (Date 2023 12 31 0 0 0 0) showItem [itemDir] []
  revert h1
  decide

/-- C9 (amended): for every listing, pattern and cutoff such that every item the
pattern does not match has a timestamp that parses with the wire layout, `find`
as written (pattern first) and the variant that parses and compares the
timestamp first have the same result: the same outcome and the same world, for
every action and starting world. -/
theorem find_order_of_evaluation_irrelevant (env : Env) (pattern : String)
    (olderThan : Time) (items : List ContentItem)
    (hparse : ∀ re, env.regexpCompile pattern = some re →
      ∀ item ∈ items, re item.resourceURI = false →
        (timeParse nexusTimeLayout item.lastModified).isSome = true) :
    ∀ (fn : Action) (w : World),
      findItems env pattern olderThan fn items w
        = findItemsTimeFirst env pattern olderThan fn items w := by
  intro fn w
  unfold findItems findItemsTimeFirst
  rw [forEach_congr items _ (findItemTimeFirst env pattern olderThan fn)]
  intro item hitem
  unfold findItem findItemTimeFirst
  cases hre : env.regexpCompile pattern with
  | none => rfl
  | some re =>
    cases hm : re item.resourceURI with
    | true =>
      cases hp : timeParse nexusTimeLayout item.lastModified with
      | none => simp [hm]
      | some t => cases hb : t.Before olderThan <;> simp [hb, hm]
    | false =>
      have hsome := hparse re hre item hitem hm
      cases hp : timeParse nexusTimeLayout item.lastModified with
      | none => simp [hp] at hsome
      | some t => cases hb : t.Before olderThan <;> simp [hb, hm]

/-- C9 witness: the listing `A, readme.txt, B, x.jar, C` with the pattern
`jar$`: `readme.txt` does not match the pattern and its timestamp parses, so the
hypothesis holds through that item; both orders skip it, report `A`, and then
panic on the timestamp of the matching `x.jar`.  On the listing
`readme.txt, A, C` both orders complete and report `A`. -/
theorem find_order_of_evaluation_irrelevant_witness :
    (fun text : String => "jar".data.isSuffixOf text.data) itemTxt.resourceURI = false ∧
    (timeParse nexusTimeLayout itemTxt.lastModified).isSome = true ∧
    (∀ (fn : Action) (w : World),
      findItems (sampleEnv []) "jar$" (Date 2023 3 1 0 0 0 0) fn
          [itemA, itemTxt, itemB, itemBad, itemC] w
        = findItemsTimeFirst (sampleEnv []) "jar$" (Date 2023 3 1 0 0 0 0) fn
          [itemA, itemTxt, itemB, itemBad, itemC] w) ∧
    findItemsTimeFirst (sampleEnv []) "jar$" (Date 2023 3 1 0 0 0 0) showItem
        [itemA, itemTxt, itemB, itemBad, itemC] []
      = .panic (.invalidTime "2023-02-01 00:00:00.0")
          [.stdout "\t2023-01-01 00:00:00.0 UTC\thttp://h1/a.jar\n"] ∧
    findItems (sampleEnv []) "jar$" (Date 2023 3 1 0 0 0 0) showItem
        [itemA, itemTxt, itemB, itemBad, itemC] []
      = .panic (.invalidTime "2023-02-01 00:00:00.0")
          [.stdout "\t2023-01-01 00:00:00.0 UTC\thttp://h1/a.jar\n"] ∧
    findItemsTimeFirst (sampleEnv []) "jar$" (Date 2023 3 1 0 0 0 0) showItem
        [itemTxt, itemA, itemC] []
      = .ok () [.stdout "\t2023-01-01 00:00:00.0 UTC\thttp://h1/a.jar\n"] ∧
    findItems (sampleEnv []) "jar$" (Date 2023 3 1 0 0 0 0) showItem
        [itemTxt, itemA, itemC] []
      = .ok () [.stdout "\t2023-01-01 00:00:00.0 UTC\thttp://h1/a.jar\n"] :=
  ⟨by decide, by decide,
   find_order_of_evaluation_irrelevant (sampleEnv []) "jar$" (Date 2023 3 1 0 0 0 0)
     [itemA, itemTxt, itemB, itemBad, itemC]
     (fun re hre => by
       obtain rfl : (fun text : String => "jar".data.isSuffixOf text.data) = re :=
         Option.some.inj hre
       decide),
   by decide, by decide, by decide, by decide⟩

/-- C10 counterexample: the server returns an empty listing and the pattern `[`
does not compile, yet `find` returns normally: the pattern is compiled inside
the loop, which has no iteration. -/
theorem find_invalid_pattern_counterexample :
    (sampleEnv []).regexpCompile "[" = none ∧
    find (sampleEnv []) "http://h1/nexus/service/local/repositories/r1/content/p1" "["
        (Date 2023 12 31 0 0 0 0) showItem []
      = .ok () [.debug "URI:http://h1/nexus/service/local/repositories/r1/content/p1",
                .get "http://h1/nexus/service/local/repositories/r1/content/p1",
                .debug "200 OK"] := by
  refine ⟨rfl, ?_⟩
  decide

/-- C10 (amended): a malformed pattern is fatal whenever the listing is not
empty (the pattern is compiled inside the loop of `find`, at the start of an
iteration): once the listing is obtained, for every non-empty listing `find`
panics with the invalid pattern at the first record, before any action is
applied to any record: whatever the action, the world holds only the three
events of the listing request. -/
theorem find_invalid_pattern_aborts_nonempty (env : Env) (uri pattern : String)
    (olderThan : Time) (w : World) (status body : String) (items : List ContentItem)
    (hget : env.httpGet (w ++ [.debug ("URI:" ++ uri)]) uri = .ok (status, body))
    (hdec : env.xmlContent body = some items)
    (hre : env.regexpCompile pattern = none)
    (hne : items ≠ []) :
    ∀ fn : Action,
      find env uri pattern olderThan fn w
        = .panic (.invalidPattern pattern)
            (w ++ [.debug ("URI:" ++ uri), .get uri, .debug status]) := by
  intro fn
  rw [find_eq_findItems env uri pattern olderThan fn w status body items hget hdec]
  cases items with
  | nil => exact absurd rfl hne
  | cons item rest => simp [findItems, findItem, hre, Prog.bind_apply]

/-- C10 witness: the listing `A, B` and the pattern `[`: `find` panics with the
invalid pattern right after the listing request, and nothing is reported. -/
theorem find_invalid_pattern_aborts_nonempty_witness :
    (sampleEnv [itemA, itemB]).regexpCompile "[" = none ∧
    find (sampleEnv [itemA, itemB]) "http://h1/r1" "[" (Date 2023 12 31 0 0 0 0) showItem []
      = .panic (.invalidPattern "[")
          ([] ++ [.debug ("URI:" ++ "http://h1/r1"), .get "http://h1/r1", .debug "200 OK"]) :=
  ⟨rfl,
   (find_invalid_pattern_aborts_nonempty (sampleEnv [itemA, itemB]) "http://h1/r1" "["
     (Date 2023 12 31 0 0 0 0) [] "200 OK" "http://h1/r1" [itemA, itemB] rfl rfl rfl
     (by decide) showItem)⟩

end NexusCli
